import Mathlib

/-!
Verification of the careerHQ occupation measurement model.

Shallow embedding of the core domain code:
  packages/core/domain/occupation_class.py      (scale / element / occupation model)
  packages/core/domain/occupation_populate.py   (rating-file parsing and population)
  packages/core/domain/occupation_initialize_2d3a.py (category-distribution expansion)
  packages/core/domain/job_initialize.py        (leaf-element loader)
  packages/core/domain/user_service.py          (derived experience score)

Python strings are modelled as `List Char` (`LC`), Python numbers as `ℚ`,
Python dicts as association lists with first-match lookup and
position-preserving update (this is exactly CPython dict semantics:
insertion order is preserved, overwriting keeps the original slot).
Exceptions are modelled with `Except` / an explicit error component.
-/

namespace CHQ

abbrev LC := List Char

/-- Model of Python `str.strip()`: drop whitespace from both ends. -/
def trimChars (s : LC) : LC :=
  ((s.dropWhile Char.isWhitespace).reverse.dropWhile Char.isWhitespace).reverse

/-- Model of Python `str.lower()` (ASCII data only in the rating files). -/
def lowerChars (s : LC) : LC := s.map Char.toLower

/-- First-match association-list lookup: model of Python `d.get(k)` / `d[k]`. -/
def lookupA {α β : Type} [DecidableEq α] : List (α × β) → α → Option β
  | [], _ => none
  | (k, v) :: rest, key => if k = key then some v else lookupA rest key

/-- Model of Python `k in d`. -/
def containsA {α β : Type} [DecidableEq α] (l : List (α × β)) (key : α) : Bool :=
  (lookupA l key).isSome

/-- Model of Python `d[k] = v`: overwrite in place keeps the original
position; a new key is appended at the end (CPython insertion order). -/
def updateA {α β : Type} [DecidableEq α] : List (α × β) → α → β → List (α × β)
  | [], key, v => [(key, v)]
  | (k, w) :: rest, key, v =>
      if k = key then (key, v) :: rest else (k, w) :: updateA rest key v

/-- Split a character list at every `'.'` (model of `str.split(".")`;
like Python, the result is never empty and keeps empty segments). -/
def splitCharsOnDot : LC → List LC
  | [] => [[]]
  | c :: cs =>
      if c = '.' then [] :: splitCharsOnDot cs
      else
        match splitCharsOnDot cs with
        | [] => [[c]]
        | h :: t => (c :: h) :: t

/-- Join segments with `'.'` (model of `".".join(parts)`). -/
def joinDots : List LC → LC
  | [] => []
  | [x] => x
  | x :: y :: ys => x ++ '.' :: joinDots (y :: ys)

/-- Decimal digits of a natural number (for Python f-string `f"{p}-{n}"`). -/
def natChars (n : Nat) : LC := Nat.toDigits 10 n

/-- Model of Python `str(i)` for an integer. -/
def intChars (i : Int) : LC :=
  if i < 0 then '-' :: natChars i.natAbs else natChars i.natAbs

/-- Numeric value of a digit run. -/
def digitsToNat (s : LC) : Nat :=
  s.foldl (fun a c => 10 * a + (c.toNat - '0'.toNat)) 0

/-- Model of Python `float(s)` on the decimal notations occurring in the
rating catalog: optional sign, integer digits, optional fraction; any
other text (letters, stray symbols, empty string) fails, mirroring the
`ValueError` branch of the parser. -/
def parsePyFloat (s : LC) : Option ℚ :=
  let (sgn, rest) : ℚ × LC :=
    match s with
    | '+' :: r => (1, r)
    | '-' :: r => (-1, r)
    | r => (1, r)
  let ip := rest.takeWhile Char.isDigit
  let rest2 := rest.dropWhile Char.isDigit
  match rest2 with
  | [] => if ip = [] then none else some (sgn * digitsToNat ip)
  | '.' :: fp =>
      if fp.all Char.isDigit ∧ (ip ≠ [] ∨ fp ≠ []) then
        some (sgn * ((digitsToNat ip : ℚ) + (digitsToNat fp : ℚ) / 10 ^ fp.length))
      else none
  | _ => none

/-- Replace every occurrence of `pat` (left to right, non-overlapping)
by `rep`: model of the single-placeholder `str.format` call used for
category meaning templates. -/
def replaceSub (pat rep : LC) : LC → LC
  | [] => []
  | c :: cs =>
      if pat ≠ [] ∧ pat.isPrefixOf (c :: cs) then
        rep ++ replaceSub pat rep (cs.drop (pat.length - 1))
      else
        c :: replaceSub pat rep cs
  termination_by s => s.length
  decreasing_by
    · simp only [List.length_cons]
      have := List.length_drop (pat.length - 1) cs
      omega
    · simp

/-! ## Core domain model (`occupation_class.py`) -/

inductive ScaleType where
  | ordinal
  | interval
  deriving DecidableEq, Repr

structure ScaleDefinition where
  scale_id : LC
  scale_name : LC
  min_value : ℚ
  max_value : ℚ
  scale_type : ScaleType
  deriving DecidableEq, Repr

/-- Element-scoped meaning of each ordinal category.  The Python class is
a frozen dataclass, but the `categories` dict it wraps is a mutable
object; the heap model below tracks that dict by reference. -/
structure OrdinalSemantics where
  categories : List (Int × LC)
  deriving DecidableEq, Repr

structure IntervalSemantics where
  meaning : LC
  deriving DecidableEq, Repr

structure ElementScale where
  scale_def : ScaleDefinition
  value : Option ℚ := none
  distribution : Option (List (Int × ℚ)) := none
  ordinal_semantics : Option OrdinalSemantics := none
  interval_semantics : Option IntervalSemantics := none
  deriving DecidableEq, Repr

/-- Model of `ElementScale.validate`.  Python's `int(x) != x` test holds
exactly when `x` is not integral, i.e. the rational has denominator ≠ 1;
for an integral value `int(x)` is the numerator. `.error` models a raised
`ValueError` (the spec's SemanticsViolation), `.ok` a normal return. -/
def ElementScale.validate (es : ElementScale) : Except String Unit :=
  match es.scale_def.scale_type with
  | .ordinal =>
      match es.ordinal_semantics with
      | none => .error "ORDINAL scale requires ordinal_semantics with category meanings."
      | some sem =>
          if es.interval_semantics.isSome then
            .error "ORDINAL scale should not have interval_semantics."
          else
            match es.value with
            | none => .ok ()
            | some v =>
                if v.den ≠ 1 then .error "ORDINAL value must be an integer category."
                else if (lookupA sem.categories v.num).isNone then
                  .error "ORDINAL value not found in ordinal_semantics.categories."
                else .ok ()
  | .interval =>
      match es.interval_semantics with
      | none => .error "INTERVAL scale requires interval_semantics describing meaning/units."
      | some _ =>
          if es.ordinal_semantics.isSome then
            .error "INTERVAL scale should not have ordinal_semantics."
          else .ok ()

/-- Model of `Element._compute_organizations`: split the dotted id, guard
empty segments away, and join every proper segment run. -/
def computeOrganizations (element_id : LC) : List LC :=
  let parts := (splitCharsOnDot element_id).filter (fun p => p ≠ [])
  if parts.length ≤ 1 then []
  else (List.range' 1 (parts.length - 1)).map (fun i => joinDots (parts.take i))

structure Element where
  element_id : LC
  element_name : LC
  organizations : List LC
  scales : List (LC × ElementScale)
  deriving DecidableEq, Repr

/-- Model of the `Element` constructor: `__post_init__` derives
`organizations` from the id; scales default to an empty dict. -/
def mkElement (element_id element_name : LC) : Element :=
  { element_id := element_id
    element_name := element_name
    organizations := computeOrganizations element_id
    scales := [] }

def Element.get_scale (el : Element) (scale_id : LC) : Option ElementScale :=
  lookupA el.scales scale_id

structure Occupation where
  occupation_id : LC
  occupation_name : LC
  elements : List (LC × Element)
  deriving DecidableEq, Repr

def Occupation.get_element (occ : Occupation) (element_id : LC) : Option Element :=
  lookupA occ.elements element_id

/-- Model of `Occupation.upsert_scale_value`.  The second component is
the raised exception, if any; the first is the occupation state when the
call returns or when the exception propagates (Python mutates in place,
so a validation error leaves the freshly-stored value behind). -/
def Occupation.upsert_scale_value (occ : Occupation) (element_id scale_id : LC)
    (value : Option ℚ) : Occupation × Option String :=
  match lookupA occ.elements element_id with
  | none => (occ, some "Unknown element_id in occupation")
  | some el =>
      match lookupA el.scales scale_id with
      | none => (occ, some "Unknown scale_id for element in occupation")
      | some es =>
          let es' := { es with value := value }
          let el' := { el with scales := updateA el.scales scale_id es' }
          let occ' := { occ with elements := updateA occ.elements element_id el' }
          match es'.validate with
          | .ok _ => (occ', none)
          | .error m => (occ', some m)

/-! ## Derived experience score (`user_service._calculate_experience_score`) -/

/-- Scale ids of the category-distribution families, as tested by
`scale_id.startswith(("RL-", "RW-", "PT-", "OJ-"))`. -/
def isCatScaleId (scale_id : LC) : Bool :=
  "RL-".data.isPrefixOf scale_id || "RW-".data.isPrefixOf scale_id ||
  "PT-".data.isPrefixOf scale_id || "OJ-".data.isPrefixOf scale_id

/-- The running maximum loop over category-distribution scales:
`max_pct` starts at `0.0` and is bumped by every populated category
value strictly above it. -/
def catMaxFold (scales : List (LC × ElementScale)) : ℚ :=
  scales.foldl
    (fun m p =>
      if isCatScaleId p.1 then
        match p.2.value with
        | some v => if m < v then v else m
        | none => m
      else m)
    0

/-- Model of `_calculate_experience_score`: the `match` chain mirrors the
early-return chain of guarded branches; a branch fires exactly when the
scale is present in the dict and its value is not `None`. -/
def calculateExperienceScore (element : Element) : ℚ :=
  match (element.get_scale "LV".data).bind (fun s => s.value),
        (element.get_scale "IM".data).bind (fun s => s.value) with
  | some lvv, some imv => lvv * imv / 35
  | _, _ =>
    match (element.get_scale "OI".data).bind (fun s => s.value) with
    | some v => v / 7
    | none =>
      match (element.get_scale "EX".data).bind (fun s => s.value) with
      | some v => v / 7
      | none =>
        match (element.get_scale "WI".data).bind (fun s => s.value) with
        | some v => (v + 3) / 6
        | none =>
          let max_pct := catMaxFold element.scales
          if 0 < max_pct then max_pct / 100 else 1 / 2

/-- The category-distribution values the max loop actually ranges over:
values of scales whose id carries a category-family id run, with null
values treated as absent. -/
def populatedCatValues (e : Element) : List ℚ :=
  e.scales.filterMap (fun p => if isCatScaleId p.1 then p.2.value else none)

/-- Running-maximum fold with a seed, as the Python loop performs it. -/
def maxFold (l : List ℚ) : ℚ :=
  l.foldl (fun m v => if m < v then v else m) 0

/-! ## Rating-file parsing (`occupation_populate.py`) -/

structure RatingFileConfig where
  file_name : LC
  has_category_column : Bool
  category_scales : List LC
  value_column_index : Nat
  deriving DecidableEq, Repr

/-- The `RATING_FILE_CONFIGS` catalog. -/
def RATING_FILE_CONFIGS : List RatingFileConfig :=
  [ { file_name := "Abilities.txt".data, has_category_column := false,
      category_scales := [], value_column_index := 4 }
  , { file_name := "Skills.txt".data, has_category_column := false,
      category_scales := [], value_column_index := 4 }
  , { file_name := "Knowledge.txt".data, has_category_column := false,
      category_scales := [], value_column_index := 4 }
  , { file_name := "Work Styles.txt".data, has_category_column := false,
      category_scales := [], value_column_index := 4 }
  , { file_name := "Interests.txt".data, has_category_column := false,
      category_scales := [], value_column_index := 4 }
  , { file_name := "Work Values.txt".data, has_category_column := false,
      category_scales := [], value_column_index := 4 }
  , { file_name := "Education, Training, and Experience.txt".data,
      has_category_column := true,
      category_scales := ["RL".data, "RW".data, "PT".data, "OJ".data],
      value_column_index := 5 }
  ]

/-- Key of the merged ratings map: `(occupation_id, element_id, scale_id)`. -/
abbrev RKey := LC × LC × LC

abbrev RMap := List (RKey × ℚ)

/-- One iteration of the row loop of `parse_rating_file` (the file has
already been split into tab-separated fields; the header row is not part
of `rows`).  Every failure mode (`continue`) returns the map unchanged. -/
def parseRatingRow (config : RatingFileConfig) (ratings : RMap) (row : List LC) : RMap :=
  if row.length < config.value_column_index + 1 then ratings
  else
    let occupation_id := trimChars (row.getD 0 [])
    let element_id := trimChars (row.getD 1 [])
    let raw_scale_id := trimChars (row.getD 3 [])
    if occupation_id = [] ∨ element_id = [] ∨ raw_scale_id = [] then ratings
    else
      let (scale_id, value_str) :=
        if config.has_category_column ∧ raw_scale_id ∈ config.category_scales then
          let category := trimChars (row.getD 4 [])
          (raw_scale_id ++ '-' :: category, trimChars (row.getD config.value_column_index []))
        else
          (raw_scale_id, trimChars (row.getD config.value_column_index []))
      if value_str = [] ∨ lowerChars value_str = "n/a".data then ratings
      else
        match parsePyFloat value_str with
        | none => ratings
        | some value => updateA ratings (occupation_id, element_id, scale_id) value

/-- Model of `parse_rating_file` on already-tokenised rows. -/
def parseRatingRows (config : RatingFileConfig) (rows : List (List LC)) : RMap :=
  rows.foldl (parseRatingRow config) []

/-! ## Population engine (`populate_occupation_values`) -/

structure PopulationStats where
  total_occupations : Nat
  total_possible_scales : Nat
  populated_scales : Nat
  missing_scales : Nat
  deriving DecidableEq, Repr

/-- Per-scale body of the population loop: a present key overwrites the
scale's value (no validation is performed); an absent key leaves the
scale untouched. -/
def populateScaleVal (ratings : RMap) (occ_id elem_id scale_id : LC)
    (es : ElementScale) : ElementScale :=
  match lookupA ratings (occ_id, elem_id, scale_id) with
  | some v => { es with value := some v }
  | none => es

/-- Per-element body of the population loop. -/
def populateElementScales (ratings : RMap) (occ_id elem_id : LC) (el : Element) : Element :=
  { el with
    scales := el.scales.map (fun p => (p.1, populateScaleVal ratings occ_id elem_id p.1 p.2)) }

/-- Per-occupation body of the population loop. -/
def populateOccupation (ratings : RMap) (occ_id : LC) (occ : Occupation) : Occupation :=
  { occ with
    elements := occ.elements.map (fun p => (p.1, populateElementScales ratings occ_id p.1 p.2)) }

/-- Number of scale slots of one element that have a matching rating key. -/
def countPopulated (ratings : RMap) (occ_id elem_id : LC)
    (scales : List (LC × ElementScale)) : Nat :=
  scales.countP (fun p => (lookupA ratings (occ_id, elem_id, p.1)).isSome)

/-- Model of `populate_occupation_values`: walks every occupation, every
element, every scale; copies the merged rating value in when the
`(occ, element, scale)` key is present, counts the slots either way. -/
def populateOccupationValues (occupations : List (LC × Occupation)) (ratings : RMap) :
    List (LC × Occupation) × PopulationStats :=
  let occupations' := occupations.map (fun p => (p.1, populateOccupation ratings p.1 p.2))
  let total := (occupations.map (fun p =>
    (p.2.elements.map (fun q => q.2.scales.length)).sum)).sum
  let populated := (occupations.map (fun p =>
    (p.2.elements.map (fun q =>
      countPopulated ratings p.1 q.1 q.2.scales)).sum)).sum
  (occupations',
   { total_occupations := occupations.length
     total_possible_scales := total
     populated_scales := populated
     missing_scales := total - populated })

/-! ## Leaf-element loader (`job_initialize.load_elements`) -/

/-- All proper join-prefixes of a dotted id, exactly as the second pass
computes them: `".".join(parts[:i])` for `i` in `1 .. len(parts)-1`,
over the raw split (no empty-segment filtering). -/
def properJoinRuns (element_id : LC) : List LC :=
  let parts := splitCharsOnDot element_id
  (List.range' 1 (parts.length - 1)).map (fun i => joinDots (parts.take i))

/-- First pass of `load_elements`: the accepted `(id, (name, desc))`
entries, in row order, with Python-dict overwrite semantics. -/
def loadEntries (rows : List (List LC)) : List (LC × (LC × Option LC)) :=
  rows.foldl
    (fun entries row =>
      if row.length < 2 then entries
      else
        let element_id := trimChars (row.getD 0 [])
        let element_name := trimChars (row.getD 1 [])
        let description := if row.length > 2 then some (trimChars (row.getD 2 [])) else none
        if element_id = [] ∨ element_name = [] then entries
        else updateA entries element_id (element_name, description))
    []

/-- The `all_ids` set, as the list of distinct accepted ids. -/
def allIdsOf (rows : List (List LC)) : List LC :=
  (loadEntries rows).map (fun p => p.1)

/-- The `parent_ids` set: every proper join-prefix of any known id. -/
def parentIdsOf (rows : List (List LC)) : List LC :=
  (allIdsOf rows).flatMap properJoinRuns

/-- `leaf_ids = all_ids - parent_ids`. -/
def leafIdsOf (rows : List (List LC)) : List LC :=
  (allIdsOf rows).filter (fun element_id => element_id ∉ parentIdsOf rows)

/-- Model of `load_elements`: build an `Element` for every leaf id that
has an entry (every leaf id does, since `all_ids` is the entry key set). -/
def loadElements (rows : List (List LC)) : List (LC × Element) :=
  (leafIdsOf rows).filterMap (fun element_id =>
    match lookupA (loadEntries rows) element_id with
    | some (element_name, _) => some (element_id, mkElement element_id element_name)
    | none => none)

/-! ## Category-distribution expansion (`occupation_initialize_2d3a.py`) -/

/-- Decoded content of one per-scale JSON schema file (the JSON decode
itself is I/O; `categories` carries the `int(cat_str)` keys). -/
structure CatSchemaFile where
  scaleIdPre : LC
  scale_name : LC
  meaning_template : LC
  min_value : ℚ
  max_value : ℚ
  categories : List (Int × LC)
  deriving DecidableEq, Repr

/-- Model of `load_category_scale_schema`: one `(ScaleDefinition,
IntervalSemantics)` pair per category, with scale id
`f"{scale_id_prefix}-{cat_int}"`, scale name suffixed with the first 50
label characters, and the meaning template instantiated with the label. -/
def loadCategoryScaleSchema (data : CatSchemaFile) :
    LC × LC × List (Int × (ScaleDefinition × IntervalSemantics)) :=
  (data.scaleIdPre, data.scale_name,
   data.categories.map (fun (cat_int, cat_label) =>
     (cat_int,
      ({ scale_id := data.scaleIdPre ++ '-' :: intChars cat_int
         scale_name := data.scale_name ++ ": ".data ++ cat_label.take 50
         min_value := data.min_value
         max_value := data.max_value
         scale_type := ScaleType.interval },
       { meaning := replaceSub "\x7bcategory\x7d".data cat_label data.meaning_template }))))

/-- Insert the whole expanded scale family of one category schema into an
element's scale dict, in category order (the body of the per-family
branches of `populate_2d3a_element_scales`). -/
def addCategoryScales (element : Element)
    (catScales : List (Int × (ScaleDefinition × IntervalSemantics))) : Element :=
  catScales.foldl
    (fun el (p : Int × (ScaleDefinition × IntervalSemantics)) =>
      { el with
        scales := updateA el.scales p.2.1.scale_id
          { scale_def := p.2.1, interval_semantics := some p.2.2 } })
    element

/-- Model of `populate_2d3a_element_scales`, parameterised by the loaded
scale schemas and the element→scale-prefix mapping (file loading is
I/O).  Elements absent from the element set are silently skipped; a
prefix outside the five known ones does nothing. -/
def populate2d3aElementScales
    (elements : List (LC × Element))
    (rlScales rwScales ptScales ojScales :
      List (Int × (ScaleDefinition × IntervalSemantics)))
    (imScale : ScaleDefinition × OrdinalSemantics)
    (mapping : List (LC × List LC)) : List (LC × Element) :=
  mapping.foldl
    (fun elems (entry : LC × List LC) =>
      match lookupA elems entry.1 with
      | none => elems
      | some element =>
          let element' := entry.2.foldl
            (fun el pre =>
              if pre = "RL".data then addCategoryScales el rlScales
              else if pre = "RW".data then addCategoryScales el rwScales
              else if pre = "PT".data then addCategoryScales el ptScales
              else if pre = "OJ".data then addCategoryScales el ojScales
              else if pre = "IM".data then
                { el with
                  scales := updateA el.scales "IM".data
                    { scale_def := imScale.1, ordinal_semantics := some imScale.2 } }
              else el)
            element
          updateA elems entry.1 element')
    elements

/-! ## Object-store model of template instantiation

`ElementTemplate.instantiate` copies each template scale into a new
`ElementScale` object while passing `ordinal_semantics=es.ordinal_semantics`
(and `scale_def`, `interval_semantics`) by reference.  `ScaleDefinition`
and `IntervalSemantics` are frozen dataclasses over immutable fields, so
sharing them is observationally pure and they are kept by value here;
`OrdinalSemantics` is frozen but wraps a mutable `Dict`, so its category
map lives in an explicit store and scales hold a reference (`ordSemRef`)
to it.  `ElementScale` objects themselves are mutable (`value`,
`distribution` are reassigned by the engine), so they live in the store
too and elements hold references. -/

structure ScaleObj where
  scale_def : ScaleDefinition
  value : Option ℚ := none
  distribution : Option (List (Int × ℚ)) := none
  ordSemRef : Option Nat := none
  interval_semantics : Option IntervalSemantics := none
  deriving DecidableEq, Repr

instance : Inhabited ScaleObj :=
  ⟨{ scale_def :=
      { scale_id := [], scale_name := [], min_value := 0, max_value := 0,
        scale_type := ScaleType.interval } }⟩

structure Store where
  scaleObjs : List ScaleObj
  ordSems : List (List (Int × LC))
  deriving DecidableEq, Repr

/-- An element whose scale dict holds references into the store. -/
structure ElementH where
  element_id : LC
  element_name : LC
  scales : List (LC × Nat)
  deriving DecidableEq, Repr

/-- A template has the same shape; it is frozen, so its own record is
never mutated, but its scale objects live in the same store. -/
structure TemplateH where
  element_id : LC
  element_name : LC
  scales : List (LC × Nat)
  deriving DecidableEq, Repr

/-- The fresh object `ElementScale(scale_def=es.scale_def, value=None,
distribution=None, ordinal_semantics=es.ordinal_semantics,
interval_semantics=es.interval_semantics)` built from template object `o`. -/
def freshCopy (o : ScaleObj) : ScaleObj :=
  { scale_def := o.scale_def
    value := none
    distribution := none
    ordSemRef := o.ordSemRef
    interval_semantics := o.interval_semantics }

/-- One scale of `ElementTemplate.instantiate`: read the template's scale
object, allocate a fresh copy, record the new reference. -/
def instStep (acc : Store × List (LC × Nat)) (p : LC × Nat) : Store × List (LC × Nat) :=
  let obj := acc.1.scaleObjs.getD p.2 default
  ({ acc.1 with scaleObjs := acc.1.scaleObjs ++ [freshCopy obj] },
   acc.2 ++ [(p.1, acc.1.scaleObjs.length)])

/-- Model of `ElementTemplate.instantiate` over the explicit store. -/
def instantiateTemplate (st : Store) (t : TemplateH) : Store × ElementH :=
  let r := t.scales.foldl instStep (st, [])
  (r.1,
   { element_id := t.element_id
     element_name := t.element_name
     scales := r.2 })

/-- One element of `OccupationSchema.instantiate_elements`. -/
def instElemStep (acc : Store × List (LC × ElementH)) (p : LC × TemplateH) :
    Store × List (LC × ElementH) :=
  let r := instantiateTemplate acc.1 p.2
  (r.1, acc.2 ++ [(p.1, r.2)])

/-- Model of `OccupationSchema.instantiate_elements`. -/
def instantiateElementsH (st : Store) (schema : List (LC × TemplateH)) :
    Store × List (LC × ElementH) :=
  schema.foldl instElemStep (st, [])

/-- Read a scale object through its reference. -/
def readScaleObj (st : Store) (ref : Nat) : ScaleObj :=
  st.scaleObjs.getD ref default

/-- Model of `es.value = v` through a reference. -/
def writeValue (st : Store) (ref : Nat) (v : Option ℚ) : Store :=
  { st with scaleObjs := st.scaleObjs.set ref { st.scaleObjs.getD ref default with value := v } }

/-- Model of `es.ordinal_semantics.categories[k] = label`: an in-place
mutation of the shared category dict named by `osr`. -/
def writeOrdCategory (st : Store) (osr : Nat) (k : Int) (label : LC) : Store :=
  { st with ordSems := st.ordSems.set osr (updateA (st.ordSems.getD osr []) k label) }

/-- Model of reading `es.ordinal_semantics.categories` through a scale
reference (`none` when the scale has no ordinal semantics). -/
def readCategoriesVia (st : Store) (ref : Nat) : Option (List (Int × LC)) :=
  match (readScaleObj st ref).ordSemRef with
  | none => none
  | some osr => some (st.ordSems.getD osr [])

/-- All scale references held by an instantiated element set. -/
def allScaleRefs (elements : List (LC × ElementH)) : List Nat :=
  elements.flatMap (fun p => p.2.scales.map (fun q => q.2))

/-- Observable content of an element: its scale dict with every
reference dereferenced. -/
def readElem (st : Store) (e : ElementH) : List (LC × ScaleObj) :=
  e.scales.map (fun p => (p.1, readScaleObj st p.2))

/-- Observable content of an instantiated element set. -/
def readOcc (st : Store) (elements : List (LC × ElementH)) :
    List (LC × List (LC × ScaleObj)) :=
  elements.map (fun p => (p.1, readElem st p.2))

/-- What a correct instantiation must look like: per template, the
null-valued fresh copy of each of its scale objects. -/
def schemaFresh (st : Store) (schema : List (LC × TemplateH)) :
    List (LC × List (LC × ScaleObj)) :=
  schema.map (fun t =>
    (t.1, t.2.scales.map (fun q => (q.1, freshCopy (readScaleObj st q.2)))))

/-! ## Concrete sample data (used by witnesses and counterexamples) -/

/-- The IM (Importance) scale: ORDINAL, 1–5, universal category labels. -/
def imScaleDef : ScaleDefinition :=
  { scale_id := "IM".data, scale_name := "Importance".data,
    min_value := 1, max_value := 5, scale_type := ScaleType.ordinal }

def imSem : OrdinalSemantics :=
  ⟨[(1, "Not Important".data), (2, "Somewhat Important".data), (3, "Important".data),
    (4, "Very Important".data), (5, "Extremely Important".data)]⟩

/-- The LV (Level) scale: ORDINAL, 0–7, element-scoped anchors. -/
def lvScaleDef : ScaleDefinition :=
  { scale_id := "LV".data, scale_name := "Level".data,
    min_value := 0, max_value := 7, scale_type := ScaleType.ordinal }

def lvSem : OrdinalSemantics :=
  ⟨(List.range' 0 8).map (fun n => ((n : Int), "anchor".data))⟩

/-- An ability element with LEVEL 4.88 and IMPORTANCE 4.62 (the spec's
concrete score case). -/
def c4Elem : Element :=
  { element_id := "1.A.1.a.1".data, element_name := "Oral Comprehension".data
    organizations := computeOrganizations "1.A.1.a.1".data
    scales :=
      [("LV".data, { scale_def := lvScaleDef, value := some (122 / 25),
                     ordinal_semantics := some lvSem }),
       ("IM".data, { scale_def := imScaleDef, value := some (231 / 50),
                     ordinal_semantics := some imSem })] }

def rl1ScaleDef : ScaleDefinition :=
  { scale_id := "RL-1".data, scale_name := "Required Level of Education: Less than High School".data,
    min_value := 0, max_value := 100, scale_type := ScaleType.interval }

/-- An education element whose only populated category value is `0.0`. -/
def c5ElemZero : Element :=
  { element_id := "2.D.1".data, element_name := "Required Level of Education".data
    organizations := computeOrganizations "2.D.1".data
    scales :=
      [("RL-1".data, { scale_def := rl1ScaleDef, value := some 0,
                       interval_semantics := some ⟨"pct".data⟩ })] }

/-- An education element whose highest populated category value is 45.91. -/
def c5Elem : Element :=
  { element_id := "2.D.1".data, element_name := "Required Level of Education".data
    organizations := computeOrganizations "2.D.1".data
    scales :=
      [("RL-1".data, { scale_def := rl1ScaleDef, value := some (4591 / 100),
                       interval_semantics := some ⟨"pct".data⟩ }),
       ("RL-2".data, { scale_def := { rl1ScaleDef with scale_id := "RL-2".data },
                       value := some 12, interval_semantics := some ⟨"pct".data⟩ })] }

/-- An ordinal IM element scale currently holding value 2. -/
def c3ES : ElementScale :=
  { scale_def := imScaleDef, value := some 2, ordinal_semantics := some imSem }

def c3El : Element :=
  { element_id := "2.D.4.a".data, element_name := "Certification".data
    organizations := computeOrganizations "2.D.4.a".data
    scales := [("IM".data, c3ES)] }

/-- An occupation holding one element with the ordinal IM scale (value 2). -/
def c3Occ : Occupation :=
  { occupation_id := "11-1011.00".data, occupation_name := "Chief Executives".data
    elements := [("2.D.4.a".data, c3El)] }

/-- A merged ratings map carrying an invalid ordinal rating (7 is not a
key of the IM category map, whose keys are 1–5). -/
def c1Ratings : RMap :=
  [(("11-1011.00".data, "2.D.4.a".data, "IM".data), (7 : ℚ))]

/-- The population run of the single sample occupation against the
invalid rating. -/
def c1Result : List (LC × Occupation) × PopulationStats :=
  populateOccupationValues [("11-1011.00".data, c3Occ)] c1Ratings

/-- Hierarchy rows for the leaf-loader: `1.A` is a parent of `1.A.1`. -/
def c9Rows : List (List LC) :=
  [["1.A".data, "Abilities".data, "Abilities desc".data],
   ["1.A.1".data, "Cognitive Abilities".data, "Cognitive desc".data],
   ["2".data, "Worker Requirements".data, "Worker Requirements".data]]

/-- A 12-category RL schema file (labels are sample text; the claim only
constrains ids, types, range and templating). -/
def c7File : CatSchemaFile :=
  { scaleIdPre := "RL".data
    scale_name := "Required Level of Education".data
    meaning_template := "Percentage of respondents indicating '\x7bcategory\x7d' is the required education level.".data
    min_value := 0
    max_value := 100
    categories :=
      [(1, "Less than a High School Diploma".data), (2, "High School Diploma".data),
       (3, "Post-Secondary Certificate".data), (4, "Some College Courses".data),
       (5, "Associate Degree".data), (6, "Bachelor Degree".data),
       (7, "Post-Baccalaureate Certificate".data), (8, "Master Degree".data),
       (9, "Post-Master Certificate".data), (10, "First Professional Degree".data),
       (11, "Doctoral Degree".data), (12, "Post-Doctoral Training".data)] }

def c7Elements : List (LC × Element) :=
  [("2.D.1".data, mkElement "2.D.1".data "Required Level of Education".data)]

/-- The Education, Training, and Experience rating-file configuration. -/
def eduConfig : RatingFileConfig :=
  { file_name := "Education, Training, and Experience.txt".data
    has_category_column := true
    category_scales := ["RL".data, "RW".data, "PT".data, "OJ".data]
    value_column_index := 5 }

/-- An Education-file row whose scale id `IM` is outside the
category-distribution set; its Data Value column (index 5) holds 4.5
while index 4 holds the Category value 3. -/
def c8Row : List LC :=
  ["11-1011.00".data, "2.D.4.a".data, "Certification".data, "IM".data,
   "3".data, "4.5".data]

/-- A store holding one template scale object whose ordinal semantics
dict is object 0. -/
def c2Store : Store :=
  { scaleObjs := [{ scale_def := imScaleDef, ordSemRef := some 0 }]
    ordSems := [[(1, "Low".data)]] }

def c2Template : TemplateH :=
  { element_id := "2.D.4.a".data, element_name := "Certification".data
    scales := [("IM".data, 0)] }

def c2Schema : List (LC × TemplateH) := [("2.D.4.a".data, c2Template)]

/-! ## Association-list lemmas -/

theorem lookupA_updateA_self {α β : Type} [DecidableEq α] (l : List (α × β)) (k : α) (v : β) :
    lookupA (updateA l k v) k = some v := by
  induction l with
  | nil => simp [updateA, lookupA]
  | cons p rest ih =>
      by_cases h : p.1 = k
      · simp [updateA, h, lookupA]
      · simp [updateA, h, lookupA, ih]

theorem lookupA_map_keyed {α β : Type} [DecidableEq α] (l : List (α × β)) (g : α → β → β)
    (k : α) :
    lookupA (l.map (fun p => (p.1, g p.1 p.2))) k = (lookupA l k).map (g k) := by
  induction l with
  | nil => simp [lookupA]
  | cons p rest ih =>
      by_cases h : p.1 = k
      · subst h; simp [lookupA, ih]
      · simp [lookupA, h, ih]

theorem updateA_fresh {α β : Type} [DecidableEq α] (l : List (α × β)) (k : α) (v : β)
    (h : lookupA l k = none) : updateA l k v = l ++ [(k, v)] := by
  induction l with
  | nil => simp [updateA]
  | cons p rest ih =>
      by_cases hp : p.1 = k
      · simp [lookupA, hp] at h
      · simp only [lookupA, hp, if_neg] at h
        simp [updateA, hp, ih h]

/-! ## C4: the LEVEL × IMPORTANCE score case -/

/-- C4: whenever both the LV and IM scales are present with non-null
values, `_calculate_experience_score` returns `(level * importance) / 35`,
regardless of any other scales (the branch is checked first). -/
theorem c4_level_importance_priority (e : Element) (a b : ℚ)
    (hlv : (e.get_scale "LV".data).bind (fun s => s.value) = some a)
    (him : (e.get_scale "IM".data).bind (fun s => s.value) = some b) :
    calculateExperienceScore e = a * b / 35 := by
  unfold calculateExperienceScore
  rw [hlv, him]

/-- C4 witness: the element with LEVEL 4.88 and IMPORTANCE 4.62 scores
`4.88 * 4.62 / 35 ≈ 0.644`. -/
theorem c4_level_importance_priority_witness :
    calculateExperienceScore c4Elem = 122 / 25 * (231 / 50) / 35 ∧
    |calculateExperienceScore c4Elem - 644 / 1000| < 1 / 1000 := by
  have h := c4_level_importance_priority c4Elem (122 / 25) (231 / 50) rfl rfl
  refine ⟨h, ?_⟩
  rw [h, abs_lt]
  constructor <;> norm_num

/-! ## C3: ordinal validation through `upsert_scale_value` -/

/-- C3: assigning a value to an ORDINAL scale (with its ordinal
semantics attached) through `Occupation.upsert_scale_value` raises
exactly when the value is not an integer or its integer form is not a
key of the category map, and succeeds exactly when it is such a key. -/
theorem c3_ordinal_validation (occ : Occupation) (el : Element) (es : ElementScale)
    (sem : OrdinalSemantics) (element_id scale_id : LC) (v : ℚ)
    (he : lookupA occ.elements element_id = some el)
    (hs : lookupA el.scales scale_id = some es)
    (ht : es.scale_def.scale_type = ScaleType.ordinal)
    (ho : es.ordinal_semantics = some sem)
    (hi : es.interval_semantics = none) :
    (occ.upsert_scale_value element_id scale_id (some v)).2 = none ↔
      (v.den = 1 ∧ (lookupA sem.categories v.num).isSome) := by
  unfold Occupation.upsert_scale_value
  rw [he]
  dsimp only
  rw [hs]
  dsimp only
  have hval : ({ es with value := some v } : ElementScale).validate =
      (if v.den ≠ 1 then Except.error "ORDINAL value must be an integer category."
       else if (lookupA sem.categories v.num).isNone then
         Except.error "ORDINAL value not found in ordinal_semantics.categories."
       else Except.ok ()) := by
    unfold ElementScale.validate
    simp only [ht, ho, hi, Option.isSome_none, Bool.false_eq_true, if_false]
  rw [hval]
  by_cases hden : v.den = 1
  · by_cases hk : (lookupA sem.categories v.num).isSome
    · simp [hden, hk, Option.isNone_iff_eq_none, Option.isSome_iff_ne_none.mp hk]
    · simp only [Option.not_isSome_iff_eq_none] at hk
      simp [hden, hk]
  · simp [hden]

/-- C3 witness: assigning 3 to the IM scale (category keys 1–5) succeeds. -/
theorem c3_ordinal_validation_witness :
    ((c3Occ.upsert_scale_value "2.D.4.a".data "IM".data (some 3)).2 = none ↔
      ((3 : ℚ).den = 1 ∧ (lookupA imSem.categories (3 : ℚ).num).isSome)) ∧
    (c3Occ.upsert_scale_value "2.D.4.a".data "IM".data (some 3)).2 = none := by
  have h := c3_ordinal_validation c3Occ c3El c3ES imSem "2.D.4.a".data "IM".data 3
    rfl rfl rfl rfl rfl
  exact ⟨h, h.mpr ⟨rfl, rfl⟩⟩

/-! ## C10: `upsert_scale_value` stores the value before validating -/

/-- C10: after any `upsert_scale_value` call that finds its element and
scale, the occupation state holds the new value — also when validation
fails, in which case the reported error is exactly the validation error
of the already-updated scale; the previous value is not restored. -/
theorem c10_upsert_stores_before_validate (occ : Occupation) (el : Element)
    (es : ElementScale) (element_id scale_id : LC) (value : Option ℚ)
    (he : lookupA occ.elements element_id = some el)
    (hs : lookupA el.scales scale_id = some es) :
    (((occ.upsert_scale_value element_id scale_id value).1.get_element element_id).bind
        (fun e => e.get_scale scale_id)) = some { es with value := value } ∧
    (occ.upsert_scale_value element_id scale_id value).2 =
      (match ({ es with value := value } : ElementScale).validate with
       | .ok _ => none
       | .error m => some m) := by
  unfold Occupation.upsert_scale_value Occupation.get_element Element.get_scale
  rw [he]
  dsimp only
  rw [hs]
  dsimp only
  cases hv : ({ es with value := value } : ElementScale).validate with
  | ok u => simp [hv, lookupA_updateA_self]
  | error m => simp [hv, lookupA_updateA_self]

/-- C10 witness: assigning the out-of-range ordinal value 7 raises, yet
the rejected value 7 remains stored on the scale (the old value 2 is
not restored). -/
theorem c10_upsert_stores_before_validate_witness :
    (((c3Occ.upsert_scale_value "2.D.4.a".data "IM".data (some 7)).1.get_element
        "2.D.4.a".data).bind (fun e => e.get_scale "IM".data))
      = some { c3ES with value := some 7 } ∧
    (c3Occ.upsert_scale_value "2.D.4.a".data "IM".data (some 7)).2
      = some "ORDINAL value not found in ordinal_semantics.categories." := by
  have h := c10_upsert_stores_before_validate c3Occ c3El c3ES "2.D.4.a".data "IM".data
    (some 7) rfl rfl
  exact ⟨h.1, h.2.trans rfl⟩

/-! ## C5: the category-distribution score case -/

theorem catMaxFold_go (scales : List (LC × ElementScale)) : ∀ (m : ℚ),
    scales.foldl
      (fun m p =>
        if isCatScaleId p.1 then
          match p.2.value with
          | some v => if m < v then v else m
          | none => m
        else m) m
    = (scales.filterMap (fun p => if isCatScaleId p.1 then p.2.value else none)).foldl
        (fun m v => if m < v then v else m) m := by
  induction scales with
  | nil => intro m; rfl
  | cons p rest ih =>
      intro m
      by_cases hc : isCatScaleId p.1
      · cases hv : p.2.value with
        | none => simp [List.foldl_cons, List.filterMap_cons, hc, hv, ih]
        | some v => simp [List.foldl_cons, List.filterMap_cons, hc, hv, ih]
      · simp [List.foldl_cons, List.filterMap_cons, hc, ih]

theorem catMaxFold_eq (e : Element) : catMaxFold e.scales = maxFold (populatedCatValues e) :=
  catMaxFold_go e.scales 0

theorem maxFold_go_spec (l : List ℚ) : ∀ (m : ℚ),
    m ≤ l.foldl (fun m v => if m < v then v else m) m ∧
    (l.foldl (fun m v => if m < v then v else m) m = m ∨
      l.foldl (fun m v => if m < v then v else m) m ∈ l) ∧
    ∀ w ∈ l, w ≤ l.foldl (fun m v => if m < v then v else m) m := by
  induction l with
  | nil => intro m; exact ⟨le_refl m, Or.inl rfl, by simp⟩
  | cons v rest ih =>
      intro m
      obtain ⟨h1, h2, h3⟩ := ih (if m < v then v else m)
      have hm : m ≤ (if m < v then v else m) := by
        by_cases h : m < v
        · simp [h, le_of_lt h]
        · simp [h]
      have hv : v ≤ (if m < v then v else m) := by
        by_cases h : m < v
        · simp [h]
        · simp [h, le_of_not_lt h]
      have hfold : (v :: rest).foldl (fun m v => if m < v then v else m) m
          = rest.foldl (fun m v => if m < v then v else m) (if m < v then v else m) := by
        rw [List.foldl_cons]
      rw [hfold]
      refine ⟨le_trans hm h1, ?_, ?_⟩
      · rcases h2 with h2 | h2
        · by_cases h : m < v
          · rw [if_pos h] at h2
            refine Or.inr ?_
            rw [if_pos h, h2]
            exact List.mem_cons_self _ _
          · rw [if_neg h] at h2
            rw [if_neg h]
            exact Or.inl h2
        · exact Or.inr (List.mem_cons_of_mem _ h2)
      · intro w hw
        rcases List.mem_cons.mp hw with h | h
        · subst h; exact le_trans hv h1
        · exact h3 w h

/-- C5 (amended): when no higher-priority scale family fires, the score
is `max(populated category values) / 100` whenever some populated
category value is positive; when every populated category value is ≤ 0
(in particular when the maximum is 0) the function falls through to the
default 0.5 instead of returning `max/100`. -/
theorem c5_category_distribution_score (e : Element)
    (hLVIM : (e.get_scale "LV".data).bind (fun s => s.value) = none ∨
             (e.get_scale "IM".data).bind (fun s => s.value) = none)
    (hOI : (e.get_scale "OI".data).bind (fun s => s.value) = none)
    (hEX : (e.get_scale "EX".data).bind (fun s => s.value) = none)
    (hWI : (e.get_scale "WI".data).bind (fun s => s.value) = none) :
    ((∃ v ∈ populatedCatValues e, 0 < v) →
       calculateExperienceScore e = maxFold (populatedCatValues e) / 100 ∧
       maxFold (populatedCatValues e) ∈ populatedCatValues e ∧
       ∀ w ∈ populatedCatValues e, w ≤ maxFold (populatedCatValues e)) ∧
    ((∀ w ∈ populatedCatValues e, w ≤ 0) → calculateExperienceScore e = 1 / 2) := by
  have hscore : calculateExperienceScore e =
      (if 0 < catMaxFold e.scales then catMaxFold e.scales / 100 else 1 / 2) := by
    unfold calculateExperienceScore
    rcases hLVIM with h | h
    · cases h2 : (e.get_scale "IM".data).bind (fun s => s.value) <;>
        rw [h, hOI, hEX, hWI]
    · cases h2 : (e.get_scale "LV".data).bind (fun s => s.value) <;>
        rw [h, hOI, hEX, hWI]
  obtain ⟨hseed, hself, hub⟩ := maxFold_go_spec (populatedCatValues e) 0
  constructor
  · rintro ⟨v, hv, hvpos⟩
    have hpos : 0 < maxFold (populatedCatValues e) := lt_of_lt_of_le hvpos (hub v hv)
    have hmem : maxFold (populatedCatValues e) ∈ populatedCatValues e := by
      rcases hself with h | h
      · rw [show maxFold (populatedCatValues e) =
            (populatedCatValues e).foldl (fun m v => if m < v then v else m) 0 from rfl] at hpos
        rw [h] at hpos
        exact absurd hpos (lt_irrefl 0)
      · exact h
    rw [hscore, catMaxFold_eq, if_pos hpos]
    exact ⟨rfl, hmem, hub⟩
  · intro hnp
    have hz : ¬ (0 : ℚ) < maxFold (populatedCatValues e) := by
      rcases hself with h | h
      · rw [show maxFold (populatedCatValues e) =
            (populatedCatValues e).foldl (fun m v => if m < v then v else m) 0 from rfl, h]
        exact lt_irrefl 0
      · exact not_lt.mpr (hnp _ h)
    rw [hscore, catMaxFold_eq, if_neg hz]

/-- C5 counterexample: an element whose only category-distribution value
is `0.0` scores the default `0.5`, not `max(values)/100 = 0` as the
claim states. -/
theorem c5_counterexample :
    calculateExperienceScore c5ElemZero = 1 / 2 ∧
    populatedCatValues c5ElemZero = [0] ∧
    isCatScaleId "RL-1".data = true ∧
    (1 / 2 : ℚ) ≠ 0 / 100 :=
  ⟨rfl, rfl, rfl, by norm_num⟩

/-- C5 witness: the element whose highest populated category value is
45.91 scores `45.91 / 100 = 0.4591`. -/
theorem c5_category_distribution_score_witness :
    calculateExperienceScore c5Elem = maxFold (populatedCatValues c5Elem) / 100 ∧
    maxFold (populatedCatValues c5Elem) ∈ populatedCatValues c5Elem ∧
    calculateExperienceScore c5Elem = 4591 / 10000 := by
  have hlist : populatedCatValues c5Elem = [4591 / 100, 12] := rfl
  have h := (c5_category_distribution_score c5Elem (Or.inl rfl) rfl rfl rfl).1
    ⟨4591 / 100, by rw [hlist]; exact List.mem_cons_self _ _, by norm_num⟩
  obtain ⟨h1, h2, _⟩ := h
  refine ⟨h1, h2, ?_⟩
  rw [h1]
  have hmax : maxFold (populatedCatValues c5Elem) = 4591 / 100 := by
    rw [hlist]
    unfold maxFold
    rw [List.foldl_cons, List.foldl_cons, List.foldl_nil]
    rw [if_pos (by norm_num : (0 : ℚ) < 4591 / 100),
        if_neg (by norm_num : ¬ (4591 / 100 : ℚ) < 12)]
  rw [hmax]
  norm_num

/-! ## C1: the population engine assigns without validating -/

/-- C1 (amended): for every occupation, element and scale slot, the
population engine looks the `(occupation, element, scale)` key up in the
merged ratings map; a present key's value is assigned directly to the
scale — with no validation, so an invalid rating is stored silently —
and an absent key leaves the slot's value untouched (null in a freshly
instantiated occupation); every other scale field is preserved, and the
returned statistics satisfy `populated + missing = total`. -/
theorem c1_population_no_validation (occupations : List (LC × Occupation)) (ratings : RMap)
    (occ_id elem_id scale_id : LC) (occ : Occupation) (el : Element) (es : ElementScale)
    (ho : lookupA occupations occ_id = some occ)
    (he : lookupA occ.elements elem_id = some el)
    (hs : lookupA el.scales scale_id = some es) :
    (lookupA (populateOccupationValues occupations ratings).1 occ_id =
       some (populateOccupation ratings occ_id occ) ∧
     lookupA (populateOccupation ratings occ_id occ).elements elem_id =
       some (populateElementScales ratings occ_id elem_id el) ∧
     lookupA (populateElementScales ratings occ_id elem_id el).scales scale_id =
       some (populateScaleVal ratings occ_id elem_id scale_id es) ∧
     (populateScaleVal ratings occ_id elem_id scale_id es).value =
       (match lookupA ratings (occ_id, elem_id, scale_id) with
        | some v => some v
        | none => es.value) ∧
     (populateScaleVal ratings occ_id elem_id scale_id es).scale_def = es.scale_def ∧
     (populateScaleVal ratings occ_id elem_id scale_id es).distribution = es.distribution ∧
     (populateScaleVal ratings occ_id elem_id scale_id es).ordinal_semantics =
       es.ordinal_semantics ∧
     (populateScaleVal ratings occ_id elem_id scale_id es).interval_semantics =
       es.interval_semantics) ∧
    (populateOccupationValues occupations ratings).2.populated_scales +
      (populateOccupationValues occupations ratings).2.missing_scales =
      (populateOccupationValues occupations ratings).2.total_possible_scales := by
  constructor
  · refine ⟨?_, ?_, ?_, ?_, ?_, ?_, ?_, ?_⟩
    · show lookupA (occupations.map (fun p => (p.1, populateOccupation ratings p.1 p.2)))
        occ_id = _
      rw [lookupA_map_keyed, ho]; rfl
    · show lookupA (occ.elements.map
        (fun p => (p.1, populateElementScales ratings occ_id p.1 p.2))) elem_id = _
      rw [lookupA_map_keyed, he]; rfl
    · show lookupA (el.scales.map
        (fun p => (p.1, populateScaleVal ratings occ_id elem_id p.1 p.2))) scale_id = _
      rw [lookupA_map_keyed, hs]; rfl
    · cases hk : lookupA ratings (occ_id, elem_id, scale_id) <;>
        simp [populateScaleVal, hk]
    · cases hk : lookupA ratings (occ_id, elem_id, scale_id) <;>
        simp [populateScaleVal, hk]
    · cases hk : lookupA ratings (occ_id, elem_id, scale_id) <;>
        simp [populateScaleVal, hk]
    · cases hk : lookupA ratings (occ_id, elem_id, scale_id) <;>
        simp [populateScaleVal, hk]
    · cases hk : lookupA ratings (occ_id, elem_id, scale_id) <;>
        simp [populateScaleVal, hk]
  · show (populateOccupationValues occupations ratings).2.populated_scales +
      (populateOccupationValues occupations ratings).2.missing_scales =
      (populateOccupationValues occupations ratings).2.total_possible_scales
    dsimp only [populateOccupationValues]
    refine Nat.add_sub_cancel' ?_
    refine List.sum_le_sum ?_
    intro p _
    refine List.sum_le_sum ?_
    intro q _
    exact List.countP_le_length _

/-- C1 counterexample: populating an ordinal IM slot with the rating 7
(not a category key) completes normally, stores the invalid value, and
reports the slot as populated — while `validate` rejects the resulting
scale, so no SemanticsViolation was raised at assignment. -/
theorem c1_counterexample :
    ((lookupA c1Result.1 "11-1011.00".data).bind
        (fun o => lookupA o.elements "2.D.4.a".data)).bind
        (fun e => lookupA e.scales "IM".data)
      = some { c3ES with value := some 7 } ∧
    ({ c3ES with value := some 7 } : ElementScale).validate
      = Except.error "ORDINAL value not found in ordinal_semantics.categories." ∧
    c1Result.2 = { total_occupations := 1, total_possible_scales := 1,
                   populated_scales := 1, missing_scales := 0 } :=
  ⟨rfl, rfl, rfl⟩

/-- C1 witness for the amended theorem: the concrete population run
assigns the looked-up value 7 to the IM slot. -/
theorem c1_population_no_validation_witness :
    (lookupA c1Result.1 "11-1011.00".data =
      some (populateOccupation c1Ratings "11-1011.00".data c3Occ)) ∧
    (populateScaleVal c1Ratings "11-1011.00".data "2.D.4.a".data "IM".data c3ES).value
      = some 7 := by
  have h := c1_population_no_validation [("11-1011.00".data, c3Occ)] c1Ratings
    "11-1011.00".data "2.D.4.a".data "IM".data c3Occ c3El c3ES rfl rfl rfl
  refine ⟨h.1.1, ?_⟩
  have hv := h.1.2.2.2.1
  rw [hv]
  rfl

/-! ## C6: split/join infrastructure and organizations -/

theorem splitCharsOnDot_ne_nil (s : LC) : splitCharsOnDot s ≠ [] := by
  cases s with
  | nil => simp [splitCharsOnDot]
  | cons c cs =>
      by_cases h : c = '.'
      · simp [splitCharsOnDot, h]
      · simp only [splitCharsOnDot, h, if_false]
        cases hs : splitCharsOnDot cs with
        | nil => simp
        | cons x t => simp

theorem joinDots_cons_head (c : Char) (x : LC) (t : List LC) :
    joinDots ((c :: x) :: t) = c :: joinDots (x :: t) := by
  cases t <;> rfl

theorem joinDots_splitCharsOnDot (s : LC) : joinDots (splitCharsOnDot s) = s := by
  induction s with
  | nil => rfl
  | cons c cs ih =>
      by_cases h : c = '.'
      · subst h
        cases hs : splitCharsOnDot cs with
        | nil => exact absurd hs (splitCharsOnDot_ne_nil cs)
        | cons x t =>
            show joinDots (splitCharsOnDot ('.' :: cs)) = '.' :: cs
            have h1 : splitCharsOnDot ('.' :: cs) = [] :: splitCharsOnDot cs := by
              simp [splitCharsOnDot]
            rw [h1, hs]
            show [] ++ '.' :: joinDots (x :: t) = '.' :: cs
            rw [List.nil_append, ← hs, ih]
      · cases hs : splitCharsOnDot cs with
        | nil => exact absurd hs (splitCharsOnDot_ne_nil cs)
        | cons x t =>
            have h1 : splitCharsOnDot (c :: cs) = (c :: x) :: t := by
              simp only [splitCharsOnDot, h, if_false]
              rw [hs]
            rw [h1, joinDots_cons_head, ← hs, ih]

theorem splitCharsOnDot_append (a b : LC) :
    splitCharsOnDot (a ++ '.' :: b) = splitCharsOnDot a ++ splitCharsOnDot b := by
  induction a with
  | nil => simp [splitCharsOnDot]
  | cons c a' ih =>
      by_cases h : c = '.'
      · subst h
        have h1 : splitCharsOnDot ('.' :: (a' ++ '.' :: b))
            = [] :: splitCharsOnDot (a' ++ '.' :: b) := by
          simp [splitCharsOnDot]
        have h2 : splitCharsOnDot ('.' :: a') = [] :: splitCharsOnDot a' := by
          simp [splitCharsOnDot]
        rw [List.cons_append, h1, h2, ih, List.cons_append]
      · cases hs : splitCharsOnDot a' with
        | nil => exact absurd hs (splitCharsOnDot_ne_nil a')
        | cons x t =>
            have h1 : splitCharsOnDot (c :: (a' ++ '.' :: b))
                = (c :: x) :: (t ++ splitCharsOnDot b) := by
              simp only [splitCharsOnDot, h, if_false]
              rw [ih, hs]
              rfl
            have h2 : splitCharsOnDot (c :: a') = (c :: x) :: t := by
              simp only [splitCharsOnDot, h, if_false]
              rw [hs]
            rw [List.cons_append, h1, h2, List.cons_append]

theorem joinDots_append (xs ys : List LC) (hx : xs ≠ []) (hy : ys ≠ []) :
    joinDots (xs ++ ys) = joinDots xs ++ '.' :: joinDots ys := by
  induction xs with
  | nil => exact absurd rfl hx
  | cons x xt ih =>
      cases xt with
      | nil =>
          cases ys with
          | nil => exact absurd rfl hy
          | cons y yt => rfl
      | cons x2 xt2 =>
          have h1 : (x :: x2 :: xt2) ++ ys = x :: ((x2 :: xt2) ++ ys) := rfl
          have h2 : (x2 :: xt2) ++ ys = x2 :: (xt2 ++ ys) := rfl
          rw [h1, h2]
          show x ++ '.' :: joinDots (x2 :: (xt2 ++ ys)) = _
          rw [← h2, ih (List.cons_ne_nil x2 xt2)]
          show x ++ '.' :: (joinDots (x2 :: xt2) ++ '.' :: joinDots ys)
            = (x ++ '.' :: joinDots (x2 :: xt2)) ++ '.' :: joinDots ys
          rw [List.append_assoc]
          rfl

theorem joinDots_take_lt (parts : List LC) (p q : Nat)
    (hp : 1 ≤ p) (hpq : p < q) (hq : q ≤ parts.length) :
    ∃ rest, joinDots (parts.take q) = joinDots (parts.take p) ++ '.' :: rest := by
  refine ⟨joinDots ((parts.drop p).take (q - p)), ?_⟩
  have hsplit : parts.take q = parts.take p ++ (parts.drop p).take (q - p) := by
    have h := List.take_add parts p (q - p)
    rw [Nat.add_sub_cancel' (le_of_lt hpq)] at h
    exact h
  rw [hsplit]
  refine joinDots_append _ _ ?_ ?_
  · have hlen : (parts.take p).length = p := by
      rw [List.length_take]
      exact Nat.min_eq_left (le_trans (le_of_lt hpq) hq)
    intro hnil
    rw [hnil] at hlen
    simp at hlen
    omega
  · have hlen : ((parts.drop p).take (q - p)).length = q - p := by
      rw [List.length_take, List.length_drop]
      exact Nat.min_eq_left (by omega)
    intro hnil
    rw [hnil] at hlen
    simp at hlen
    omega

/-- C6: for a well-formed dotted id (no empty segments),
`_compute_organizations` returns exactly the strings `s` with
`id = s ++ "." ++ rest` — the proper dot-prefixes, excluding the id
itself and the empty prefix — ordered root-to-nearest (each listed
prefix is a dot-prefix of every later one); and any id with at most one
(non-empty) segment yields the empty list. -/
theorem c6_organizations (element_id : LC)
    (hws : ∀ seg ∈ splitCharsOnDot element_id, seg ≠ []) :
    (∀ s, s ∈ computeOrganizations element_id ↔
        ∃ rest, element_id = s ++ '.' :: rest) ∧
    (computeOrganizations element_id).Pairwise
      (fun a b => ∃ rest, b = a ++ '.' :: rest) ∧
    ((splitCharsOnDot element_id).length ≤ 1 → computeOrganizations element_id = []) := by
  have hf : (splitCharsOnDot element_id).filter (fun p => p ≠ []) =
      splitCharsOnDot element_id := by
    refine List.filter_eq_self.mpr ?_
    intro a ha
    simpa using hws a ha
  have horg : computeOrganizations element_id =
      (if (splitCharsOnDot element_id).length ≤ 1 then []
       else (List.range' 1 ((splitCharsOnDot element_id).length - 1)).map
         (fun i => joinDots ((splitCharsOnDot element_id).take i))) := by
    unfold computeOrganizations
    rw [hf]
  set parts := splitCharsOnDot element_id with hparts
  have hpnil : parts ≠ [] := splitCharsOnDot_ne_nil element_id
  have hplen : 1 ≤ parts.length := List.length_pos.mpr hpnil
  have hjoin : joinDots parts = element_id := joinDots_splitCharsOnDot element_id
  refine ⟨?_, ?_, ?_⟩
  · intro s
    constructor
    · intro hmem
      rw [horg] at hmem
      by_cases hn : parts.length ≤ 1
      · rw [if_pos hn] at hmem
        exact absurd hmem (List.not_mem_nil s)
      · rw [if_neg hn] at hmem
        obtain ⟨i, hi, hs⟩ := List.mem_map.mp hmem
        obtain ⟨hi1, hi2⟩ := List.mem_range'_1.mp hi
        have hilt : i < parts.length := by omega
        obtain ⟨rest, hrest⟩ := joinDots_take_lt parts i parts.length hi1 hilt (le_refl _)
        rw [List.take_length] at hrest
        exact ⟨rest, by rw [← hjoin, hrest, hs]⟩
    · rintro ⟨rest, hrest⟩
      have hsplit2 : splitCharsOnDot element_id =
          splitCharsOnDot s ++ splitCharsOnDot rest := by
        rw [hrest]; exact splitCharsOnDot_append s rest
      have hslen : 1 ≤ (splitCharsOnDot s).length :=
        List.length_pos.mpr (splitCharsOnDot_ne_nil s)
      have hrlen : 1 ≤ (splitCharsOnDot rest).length :=
        List.length_pos.mpr (splitCharsOnDot_ne_nil rest)
      have hlen2 : parts.length =
          (splitCharsOnDot s).length + (splitCharsOnDot rest).length := by
        rw [hparts, hsplit2, List.length_append]
      rw [horg, if_neg (by omega)]
      refine List.mem_map.mpr ⟨(splitCharsOnDot s).length, ?_, ?_⟩
      · exact List.mem_range'_1.mpr ⟨hslen, by omega⟩
      · have htake : parts.take (splitCharsOnDot s).length = splitCharsOnDot s := by
          rw [hparts, hsplit2]
          exact List.take_left _ _
        rw [htake, joinDots_splitCharsOnDot]
  · rw [horg]
    by_cases hn : parts.length ≤ 1
    · rw [if_pos hn]; exact List.Pairwise.nil
    · rw [if_neg hn]
      rw [List.pairwise_map]
      rw [List.pairwise_iff_getElem]
      intro i j hi hj hij
      have hi' : i < parts.length - 1 := by simpa using hi
      have hj' : j < parts.length - 1 := by simpa using hj
      have hgi : (List.range' 1 (parts.length - 1))[i] = 1 + i :=
        List.getElem_range'_1 i hi
      have hgj : (List.range' 1 (parts.length - 1))[j] = 1 + j :=
        List.getElem_range'_1 j hj
      simp only [hgi, hgj]
      exact joinDots_take_lt parts (1 + i) (1 + j) (by omega) (by omega) (by omega)
  · intro hn
    rw [horg, if_pos hn]

/-- C6 witness: the spec's example id, checked both concretely and
through the characterization theorem. -/
theorem c6_organizations_witness :
    computeOrganizations "2.A.c.3.1".data =
      ["2".data, "2.A".data, "2.A.c".data, "2.A.c.3".data] ∧
    ("2.A.c".data ∈ computeOrganizations "2.A.c.3.1".data ↔
      ∃ rest, "2.A.c.3.1".data = "2.A.c".data ++ '.' :: rest) ∧
    computeOrganizations "2".data = [] :=
  ⟨by decide, (c6_organizations "2.A.c.3.1".data (by decide)).1 "2.A.c".data,
   (c6_organizations "2".data (by decide)).2.2 (by decide)⟩

/-! ## C9: the leaf invariant of the element loader -/

theorem mem_properJoinRuns (a b : LC) (h : ∃ rest, b = a ++ '.' :: rest) :
    a ∈ properJoinRuns b := by
  obtain ⟨rest, hrest⟩ := h
  subst hrest
  unfold properJoinRuns
  have hsplit : splitCharsOnDot (a ++ '.' :: rest) =
      splitCharsOnDot a ++ splitCharsOnDot rest := splitCharsOnDot_append a rest
  have hslen : 1 ≤ (splitCharsOnDot a).length :=
    List.length_pos.mpr (splitCharsOnDot_ne_nil a)
  have hrlen : 1 ≤ (splitCharsOnDot rest).length :=
    List.length_pos.mpr (splitCharsOnDot_ne_nil rest)
  refine List.mem_map.mpr ⟨(splitCharsOnDot a).length, ?_, ?_⟩
  · refine List.mem_range'_1.mpr ⟨hslen, ?_⟩
    rw [hsplit, List.length_append]
    omega
  · have htake : (splitCharsOnDot (a ++ '.' :: rest)).take (splitCharsOnDot a).length =
        splitCharsOnDot a := by
      rw [hsplit]
      exact List.take_left _ _
    rw [htake, joinDots_splitCharsOnDot]

theorem loadElements_key (rows : List (List LC)) (p : LC × Element)
    (hp : p ∈ loadElements rows) : p.1 ∈ leafIdsOf rows := by
  unfold loadElements at hp
  obtain ⟨eid, hid, hm⟩ := List.mem_filterMap.mp hp
  cases hl : lookupA (loadEntries rows) eid with
  | none => rw [hl] at hm; exact absurd hm (by simp)
  | some v =>
      rw [hl] at hm
      cases v with
      | mk n d =>
          simp only [Option.some.injEq] at hm
          rw [← hm]
          exact hid

/-- C9: no id in the loader's leaf set is a dot-prefix of another id of
the set — any id that is a proper dot-prefix of some loaded id lands in
`parent_ids` and is excluded from `leaf_ids`, hence from the returned
element dictionary. -/
theorem c9_leaf_invariant (rows : List (List LC)) :
    (∀ a b, a ∈ allIdsOf rows → b ∈ allIdsOf rows →
       (∃ rest, b = a ++ '.' :: rest) → a ∉ leafIdsOf rows) ∧
    (∀ p q, p ∈ loadElements rows → q ∈ loadElements rows →
       ∀ rest, q.1 ≠ p.1 ++ '.' :: rest) := by
  have hmain : ∀ a b, a ∈ allIdsOf rows → b ∈ allIdsOf rows →
      (∃ rest, b = a ++ '.' :: rest) → a ∉ leafIdsOf rows := by
    intro a b _ hb hdp hleaf
    have hpar : a ∈ parentIdsOf rows := by
      unfold parentIdsOf
      exact List.mem_flatMap.mpr ⟨b, hb, mem_properJoinRuns a b hdp⟩
    have := (List.mem_filter.mp hleaf).2
    simp only [decide_eq_true_eq] at this
    exact this hpar
  refine ⟨hmain, ?_⟩
  intro p q hp hq rest heq
  have hpl : p.1 ∈ leafIdsOf rows := loadElements_key rows p hp
  have hql : q.1 ∈ leafIdsOf rows := loadElements_key rows q hq
  have hpa : p.1 ∈ allIdsOf rows := (List.mem_filter.mp hpl).1
  have hqa : q.1 ∈ allIdsOf rows := (List.mem_filter.mp hql).1
  exact hmain p.1 q.1 hpa hqa ⟨rest, heq⟩ hpl

/-- C9 witness: in a hierarchy where `1.A.1` is loaded, its parent
`1.A` is excluded from the leaf set. -/
theorem c9_leaf_invariant_witness :
    "1.A".data ∉ leafIdsOf c9Rows ∧
    leafIdsOf c9Rows = ["1.A.1".data, "2".data] :=
  ⟨(c9_leaf_invariant c9Rows).1 "1.A".data "1.A.1".data (by decide) (by decide)
     ⟨"1".data, by decide⟩,
   by decide⟩

/-! ## C8: the rating-row parse rule -/

/-- C8 (amended): a row of a rating file with a category column whose
raw scale id is in the category set produces the key
`{scale_id}-{category}`; any other row produces the raw scale id; in
both cases the value is read from the file's configured value column
(index 5 for the category-column file, 4 for all others — never from
index 4 in a category-column file); rows with a missing, empty, "n/a"
or non-numeric value field produce no entry, and parsing is total (no
error is ever raised). -/
theorem c8_parse_rule (config : RatingFileConfig) (m : RMap) (row : List LC) :
    ((row.length < config.value_column_index + 1 ∨
      trimChars (row.getD 0 []) = [] ∨ trimChars (row.getD 1 []) = [] ∨
      trimChars (row.getD 3 []) = [] ∨
      trimChars (row.getD config.value_column_index []) = [] ∨
      lowerChars (trimChars (row.getD config.value_column_index [])) = "n/a".data ∨
      parsePyFloat (trimChars (row.getD config.value_column_index [])) = none) →
      parseRatingRow config m row = m) ∧
    (∀ v : ℚ,
      config.value_column_index + 1 ≤ row.length →
      trimChars (row.getD 0 []) ≠ [] → trimChars (row.getD 1 []) ≠ [] →
      trimChars (row.getD 3 []) ≠ [] →
      trimChars (row.getD config.value_column_index []) ≠ [] →
      lowerChars (trimChars (row.getD config.value_column_index [])) ≠ "n/a".data →
      parsePyFloat (trimChars (row.getD config.value_column_index [])) = some v →
      ((config.has_category_column ∧ trimChars (row.getD 3 []) ∈ config.category_scales →
        parseRatingRow config m row =
          updateA m (trimChars (row.getD 0 []), trimChars (row.getD 1 []),
            trimChars (row.getD 3 []) ++ '-' :: trimChars (row.getD 4 [])) v) ∧
       (¬ (config.has_category_column ∧ trimChars (row.getD 3 []) ∈ config.category_scales) →
        parseRatingRow config m row =
          updateA m (trimChars (row.getD 0 []), trimChars (row.getD 1 []),
            trimChars (row.getD 3 [])) v))) ∧
    (∀ cfg ∈ RATING_FILE_CONFIGS,
      cfg.value_column_index = if cfg.has_category_column then 5 else 4) := by
  refine ⟨?_, ?_, by decide⟩
  · intro hbad
    unfold parseRatingRow
    by_cases h1 : row.length < config.value_column_index + 1
    · rw [if_pos h1]
    · rw [if_neg h1]
      by_cases h2 : trimChars (row.getD 0 []) = [] ∨ trimChars (row.getD 1 []) = [] ∨
          trimChars (row.getD 3 []) = []
      · rw [if_pos h2]
      · rw [if_neg h2]
        have hval : trimChars (row.getD config.value_column_index []) = [] ∨
            lowerChars (trimChars (row.getD config.value_column_index [])) = "n/a".data ∨
            parsePyFloat (trimChars (row.getD config.value_column_index [])) = none := by
          rcases hbad with h | h | h | h | h | h | h
          · exact absurd h h1
          · exact absurd (Or.inl h) h2
          · exact absurd (Or.inr (Or.inl h)) h2
          · exact absurd (Or.inr (Or.inr h)) h2
          · exact Or.inl h
          · exact Or.inr (Or.inl h)
          · exact Or.inr (Or.inr h)
        by_cases h3 : config.has_category_column ∧
            trimChars (row.getD 3 []) ∈ config.category_scales
        · rw [if_pos h3]
          dsimp only
          rcases hval with h | h | h
          · rw [if_pos (Or.inl h)]
          · rw [if_pos (Or.inr h)]
          · by_cases h4 : trimChars (row.getD config.value_column_index []) = [] ∨
                lowerChars (trimChars (row.getD config.value_column_index [])) = "n/a".data
            · rw [if_pos h4]
            · rw [if_neg h4, h]
        · rw [if_neg h3]
          dsimp only
          rcases hval with h | h | h
          · rw [if_pos (Or.inl h)]
          · rw [if_pos (Or.inr h)]
          · by_cases h4 : trimChars (row.getD config.value_column_index []) = [] ∨
                lowerChars (trimChars (row.getD config.value_column_index [])) = "n/a".data
            · rw [if_pos h4]
            · rw [if_neg h4, h]
  · intro v hlen hocc helem hraw hne hna hparse
    unfold parseRatingRow
    rw [if_neg (by omega)]
    rw [if_neg (by
      rintro (h | h | h)
      · exact hocc h
      · exact helem h
      · exact hraw h)]
    constructor
    · intro h3
      rw [if_pos h3]
      dsimp only
      rw [if_neg (by
        rintro (h | h)
        · exact hne h
        · exact hna h)]
      rw [hparse]
    · intro h3
      rw [if_neg h3]
      dsimp only
      rw [if_neg (by
        rintro (h | h)
        · exact hne h
        · exact hna h)]
      rw [hparse]

/-- C8 counterexample: in the category-column Education file, a row with
the non-category scale id `IM` still reads its value from column index 5
(value 4.5), not index 4 (which holds the category `3`) as the claim
states. -/
theorem c8_counterexample :
    parseRatingRows eduConfig [c8Row] =
      [(("11-1011.00".data, "2.D.4.a".data, "IM".data), (9 / 2 : ℚ))] ∧
    trimChars (c8Row.getD 4 []) = "3".data ∧
    eduConfig ∈ RATING_FILE_CONFIGS ∧
    eduConfig.has_category_column = true ∧
    "IM".data ∉ eduConfig.category_scales ∧
    (9 / 2 : ℚ) ≠ 3 := by
  refine ⟨?_, by decide, by decide, rfl, by decide, by norm_num⟩
  have h1 : parseRatingRows eduConfig [c8Row] =
      [(("11-1011.00".data, "2.D.4.a".data, "IM".data),
        (1 * ((digitsToNat ['4'] : ℚ) + (digitsToNat ['5'] : ℚ) / 10 ^ (['5'] : LC).length)))]
      := rfl
  rw [h1]
  have hd4 : digitsToNat ['4'] = 4 := by decide
  have hd5 : digitsToNat ['5'] = 5 := by decide
  rw [hd4, hd5]
  simp only [List.cons.injEq, Prod.mk.injEq, and_true, true_and, List.length_cons,
    List.length_nil]
  norm_num

/-- C8 witness: the amended rule applied to the Education-file row. -/
theorem c8_parse_rule_witness :
    parseRatingRow eduConfig [] c8Row =
      updateA [] ("11-1011.00".data, "2.D.4.a".data, "IM".data) (9 / 2 : ℚ) := by
  have hparse : parsePyFloat (trimChars (c8Row.getD eduConfig.value_column_index []))
      = some (9 / 2 : ℚ) := by
    have h1 : parsePyFloat (trimChars (c8Row.getD eduConfig.value_column_index [])) =
        some (1 * ((digitsToNat ['4'] : ℚ) + (digitsToNat ['5'] : ℚ) / 10 ^ (['5'] : LC).length))
        := rfl
    rw [h1]
    have hd4 : digitsToNat ['4'] = 4 := by decide
    have hd5 : digitsToNat ['5'] = 5 := by decide
    rw [hd4, hd5]
    norm_num
  exact ((c8_parse_rule eduConfig [] c8Row).2.1 (9 / 2) (by decide) (by decide) (by decide)
    (by decide) (by decide) (by decide) hparse).2 (by decide)

/-! ## C7: category-distribution expansion -/

theorem lookupA_append {α β : Type} [DecidableEq α] (l1 l2 : List (α × β)) (k : α) :
    lookupA (l1 ++ l2) k =
      (match lookupA l1 k with
       | some v => some v
       | none => lookupA l2 k) := by
  induction l1 with
  | nil => simp [lookupA]
  | cons p rest ih =>
      by_cases h : p.1 = k
      · simp [lookupA, h]
      · simp [lookupA, h, ih]

theorem addCategoryScales_go
    (catScales : List (Int × (ScaleDefinition × IntervalSemantics))) :
    ∀ (el : Element),
    (∀ p ∈ catScales, lookupA el.scales p.2.1.scale_id = none) →
    (catScales.map (fun p => p.2.1.scale_id)).Nodup →
    (addCategoryScales el catScales).scales =
      el.scales ++ catScales.map (fun p =>
        (p.2.1.scale_id,
         ({ scale_def := p.2.1, value := none, distribution := none,
            ordinal_semantics := none,
            interval_semantics := some p.2.2 } : ElementScale))) := by
  induction catScales with
  | nil => intro el _ _; simp [addCategoryScales]
  | cons p cs ih =>
      intro el hfresh hnd
      have hp := hfresh p (List.mem_cons_self _ _)
      have hstep : addCategoryScales el (p :: cs) =
          addCategoryScales
            { el with scales := (updateA el.scales p.2.1.scale_id
                ({ scale_def := p.2.1, interval_semantics := some p.2.2 } : ElementScale)) }
            cs := rfl
      rw [hstep]
      have hupd : updateA el.scales p.2.1.scale_id
          ({ scale_def := p.2.1, interval_semantics := some p.2.2 } : ElementScale) =
          el.scales ++ [(p.2.1.scale_id,
            ({ scale_def := p.2.1, interval_semantics := some p.2.2 } : ElementScale))] :=
        updateA_fresh _ _ _ hp
      have hnd' := (List.nodup_cons.mp hnd).2
      have hne := (List.nodup_cons.mp hnd).1
      have hfresh' : ∀ q ∈ cs, lookupA (el.scales ++ [(p.2.1.scale_id,
          ({ scale_def := p.2.1, interval_semantics := some p.2.2 } : ElementScale))])
          q.2.1.scale_id = none := by
        intro q hq
        rw [lookupA_append]
        rw [hfresh q (List.mem_cons_of_mem _ hq)]
        have hqne : p.2.1.scale_id ≠ q.2.1.scale_id := by
          intro hcontra
          have hmem : q.2.1.scale_id ∈ cs.map (fun p => p.2.1.scale_id) :=
            List.mem_map.mpr ⟨q, hq, rfl⟩
          rw [← hcontra] at hmem
          exact hne hmem
        simp [lookupA, hqne]
      have := ih { el with scales := el.scales ++ [(p.2.1.scale_id,
          ({ scale_def := p.2.1, interval_semantics := some p.2.2 } : ElementScale))] }
        hfresh' hnd'
      rw [hupd]
      rw [this]
      simp [List.append_assoc]

/-- C7: an element mapped to prefix RL whose schema file declares the
twelve categories 1–12 with range [0, 100] receives exactly the scale
ids RL-1 … RL-12, in category order, each a fresh INTERVAL scale with
range [0, 100], a null value, and a meaning produced by substituting the
category's label into the schema's meaning template. -/
theorem c7_category_expansion (f : CatSchemaFile) (elements : List (LC × Element))
    (eid : LC) (el : Element)
    (rwS ptS ojS : List (Int × (ScaleDefinition × IntervalSemantics)))
    (imS : ScaleDefinition × OrdinalSemantics)
    (hpre : f.scaleIdPre = "RL".data)
    (hkeys : f.categories.map Prod.fst = [1, 2, 3, 4, 5, 6, 7, 8, 9, 10, 11, 12])
    (hmin : f.min_value = 0) (hmax : f.max_value = 100)
    (helem : lookupA elements eid = some el) (hel0 : el.scales = []) :
    ∃ el',
      lookupA (populate2d3aElementScales elements
          (loadCategoryScaleSchema f).2.2 rwS ptS ojS imS [(eid, ["RL".data])]) eid
        = some el' ∧
      el'.scales.map Prod.fst =
        ["RL-1".data, "RL-2".data, "RL-3".data, "RL-4".data, "RL-5".data, "RL-6".data,
         "RL-7".data, "RL-8".data, "RL-9".data, "RL-10".data, "RL-11".data, "RL-12".data] ∧
      el'.scales.length = 12 ∧
      ∀ q ∈ el'.scales,
        q.2.scale_def.scale_type = ScaleType.interval ∧
        q.2.scale_def.min_value = 0 ∧ q.2.scale_def.max_value = 100 ∧
        q.2.value = none ∧ q.2.ordinal_semantics = none ∧
        ∃ cat label, (cat, label) ∈ f.categories ∧
          q.1 = "RL".data ++ '-' :: intChars cat ∧
          q.2.interval_semantics =
            some ⟨replaceSub "\x7bcategory\x7d".data label f.meaning_template⟩ := by
  have hids : ((loadCategoryScaleSchema f).2.2.map (fun p => p.2.1.scale_id)) =
      f.categories.map (fun p => "RL".data ++ '-' :: intChars p.1) := by
    unfold loadCategoryScaleSchema
    rw [List.map_map]
    refine List.map_congr_left ?_
    intro p _
    simp [hpre]
  have hids2 : f.categories.map (fun p => "RL".data ++ '-' :: intChars p.1) =
      ["RL-1".data, "RL-2".data, "RL-3".data, "RL-4".data, "RL-5".data, "RL-6".data,
       "RL-7".data, "RL-8".data, "RL-9".data, "RL-10".data, "RL-11".data, "RL-12".data] := by
    have h1 : f.categories.map (fun p => "RL".data ++ '-' :: intChars p.1) =
        (f.categories.map Prod.fst).map (fun k => "RL".data ++ '-' :: intChars k) := by
      rw [List.map_map]
      rfl
    rw [h1, hkeys]
    decide
  have hnd : ((loadCategoryScaleSchema f).2.2.map (fun p => p.2.1.scale_id)).Nodup := by
    rw [hids, hids2]
    decide
  have hfresh : ∀ p ∈ (loadCategoryScaleSchema f).2.2,
      lookupA el.scales p.2.1.scale_id = none := by
    intro p _
    rw [hel0]
    rfl
  have hscales := addCategoryScales_go (loadCategoryScaleSchema f).2.2 el hfresh hnd
  rw [hel0, List.nil_append] at hscales
  have hstep : populate2d3aElementScales elements
      (loadCategoryScaleSchema f).2.2 rwS ptS ojS imS [(eid, ["RL".data])] =
      updateA elements eid (addCategoryScales el (loadCategoryScaleSchema f).2.2) := by
    unfold populate2d3aElementScales
    simp only [List.foldl_cons, List.foldl_nil]
    rw [helem]
    dsimp only
    simp only [if_true]
  refine ⟨addCategoryScales el (loadCategoryScaleSchema f).2.2, ?_, ?_, ?_, ?_⟩
  · rw [hstep]
    exact lookupA_updateA_self _ _ _
  · rw [hscales, List.map_map]
    exact hids.trans hids2
  · rw [hscales, List.length_map]
    have hlen : f.categories.length = 12 := by
      have h := congrArg List.length hkeys
      simpa using h
    unfold loadCategoryScaleSchema
    rw [List.length_map]
    exact hlen
  · rw [hscales]
    intro q hq
    obtain ⟨p, hp, hpq⟩ := List.mem_map.mp hq
    subst hpq
    unfold loadCategoryScaleSchema at hp
    obtain ⟨c, hc, hcp⟩ := List.mem_map.mp hp
    obtain ⟨cat, label⟩ := c
    dsimp only at hcp
    subst hcp
    refine ⟨rfl, by simpa using hmin, by simpa using hmax, rfl, rfl,
      cat, label, hc, ?_, rfl⟩
    dsimp only
    rw [hpre]

/-- C7 witness: the concrete 12-category RL schema expands the `2.D.1`
element into exactly RL-1 … RL-12. -/
theorem c7_category_expansion_witness :
    (lookupA (populate2d3aElementScales c7Elements
        (loadCategoryScaleSchema c7File).2.2 [] [] [] (imScaleDef, imSem)
        [("2.D.1".data, ["RL".data])]) "2.D.1".data).map
      (fun el => el.scales.map Prod.fst)
      = some ["RL-1".data, "RL-2".data, "RL-3".data, "RL-4".data, "RL-5".data,
              "RL-6".data, "RL-7".data, "RL-8".data, "RL-9".data, "RL-10".data,
              "RL-11".data, "RL-12".data] := by
  obtain ⟨el', h1, h2, _, _⟩ := c7_category_expansion c7File c7Elements "2.D.1".data
    (mkElement "2.D.1".data "Required Level of Education".data) [] [] []
    (imScaleDef, imSem) rfl (by decide) rfl rfl rfl rfl
  rw [h1, Option.map_some', h2]

/-! ## C2: sharing analysis of template instantiation -/

theorem getD_set_ne (l : List ScaleObj) (i j : Nat) (a d : ScaleObj) (h : i ≠ j) :
    (l.set i a).getD j d = l.getD j d := by
  simp [List.getD_eq_getElem?_getD, List.getElem?_set_ne h]

theorem instStep_foldl (l : List (LC × Nat)) : ∀ (st : Store) (acc : List (LC × Nat)),
    (∀ p ∈ l, p.2 < st.scaleObjs.length) →
    (l.foldl instStep (st, acc)).1.ordSems = st.ordSems ∧
    (l.foldl instStep (st, acc)).1.scaleObjs
      = st.scaleObjs ++ l.map (fun p => freshCopy (st.scaleObjs.getD p.2 default)) ∧
    (l.foldl instStep (st, acc)).2
      = acc ++ (l.map Prod.fst).zip (List.range' st.scaleObjs.length l.length) := by
  induction l with
  | nil => intro st acc _; simp
  | cons p l' ih =>
      intro st acc hval
      have hstep : (p :: l').foldl instStep (st, acc) =
          l'.foldl instStep
            ({ st with scaleObjs :=
                st.scaleObjs ++ [freshCopy (st.scaleObjs.getD p.2 default)] },
             acc ++ [(p.1, st.scaleObjs.length)]) := rfl
      rw [hstep]
      have hval' : ∀ q ∈ l', q.2 <
          ({ st with scaleObjs :=
              st.scaleObjs ++ [freshCopy (st.scaleObjs.getD p.2 default)] } : Store
           ).scaleObjs.length := by
        intro q hq
        have := hval q (List.mem_cons_of_mem _ hq)
        simp only [List.length_append, List.length_cons, List.length_nil]
        omega
      obtain ⟨ho, hs, he⟩ := ih _ _ hval'
      refine ⟨ho, ?_, ?_⟩
      · rw [hs]
        show (st.scaleObjs ++ [freshCopy (st.scaleObjs.getD p.2 default)]) ++ _ = _
        rw [List.append_assoc, List.singleton_append, List.map_cons]
        congr 1
        congr 1
        refine List.map_congr_left ?_
        intro q hq
        congr 1
        exact List.getD_append _ _ _ _ (hval q (List.mem_cons_of_mem _ hq))
      · rw [he]
        simp only [List.length_append, List.length_cons, List.length_nil,
          List.map_cons, List.length_cons]
        rw [List.range'_succ]
        rw [List.zip_cons_cons]
        simp [List.append_assoc]

theorem instantiateTemplate_spec (st : Store) (t : TemplateH)
    (h : ∀ p ∈ t.scales, p.2 < st.scaleObjs.length) :
    (instantiateTemplate st t).1.ordSems = st.ordSems ∧
    (instantiateTemplate st t).1.scaleObjs
      = st.scaleObjs ++ t.scales.map (fun p => freshCopy (st.scaleObjs.getD p.2 default)) ∧
    (instantiateTemplate st t).2.scales
      = (t.scales.map Prod.fst).zip (List.range' st.scaleObjs.length t.scales.length) := by
  obtain ⟨ho, hs, he⟩ := instStep_foldl t.scales st [] h
  exact ⟨ho, hs, by rw [show (instantiateTemplate st t).2.scales
    = (t.scales.foldl instStep (st, [])).2 from rfl, he, List.nil_append]⟩

theorem read_zip_range' (qs : List (LC × Nat)) (g : LC × Nat → ScaleObj) :
    ∀ (pre : List ScaleObj),
    ((qs.map Prod.fst).zip (List.range' pre.length qs.length)).map
        (fun p => (p.1, (pre ++ qs.map g).getD p.2 default))
      = qs.map (fun q => (q.1, g q)) := by
  induction qs with
  | nil => intro pre; simp
  | cons q qs' ih =>
      intro pre
      simp only [List.map_cons, List.length_cons, List.range'_succ, List.zip_cons_cons]
      have hhead : (pre ++ g q :: qs'.map g).getD pre.length default = g q := by
        rw [List.getD_append_right _ _ _ _ (le_refl _)]
        simp
      have htail : pre ++ g q :: qs'.map g = (pre ++ [g q]) ++ qs'.map g := by simp
      have hlen : pre.length + 1 = (pre ++ [g q]).length := by simp
      rw [hhead, htail, hlen, ih (pre ++ [g q])]

theorem readElem_instantiate (st : Store) (t : TemplateH)
    (h : ∀ p ∈ t.scales, p.2 < st.scaleObjs.length) :
    readElem (instantiateTemplate st t).1 (instantiateTemplate st t).2
      = t.scales.map (fun q => (q.1, freshCopy (readScaleObj st q.2))) := by
  obtain ⟨_, hs, he⟩ := instantiateTemplate_spec st t h
  unfold readElem readScaleObj
  rw [he, hs]
  exact read_zip_range' t.scales _ st.scaleObjs

theorem readElem_extend (stA stB : Store) (e : ElementH) (objs : List ScaleObj)
    (hobjs : stB.scaleObjs = stA.scaleObjs ++ objs)
    (h : ∀ q ∈ e.scales, q.2 < stA.scaleObjs.length) :
    readElem stB e = readElem stA e := by
  unfold readElem readScaleObj
  refine List.map_congr_left ?_
  intro q hq
  rw [hobjs]
  rw [List.getD_append _ _ _ _ (h q hq)]

theorem schemaFresh_extend (stA stB : Store) (schema : List (LC × TemplateH))
    (objs : List ScaleObj)
    (hobjs : stB.scaleObjs = stA.scaleObjs ++ objs)
    (h : ∀ t ∈ schema, ∀ p ∈ t.2.scales, p.2 < stA.scaleObjs.length) :
    schemaFresh stB schema = schemaFresh stA schema := by
  unfold schemaFresh readScaleObj
  refine List.map_congr_left ?_
  intro t ht
  refine congrArg (fun l => (t.1, l)) ?_
  refine List.map_congr_left ?_
  intro q hq
  rw [hobjs]
  rw [List.getD_append _ _ _ _ (h t ht q hq)]

theorem map_snd_zip_of_length_eq {α β : Type} :
    ∀ (as : List α) (bs : List β), as.length = bs.length →
    (as.zip bs).map Prod.snd = bs := by
  intro as
  induction as with
  | nil => intro bs h; cases bs with
      | nil => rfl
      | cons b bt => simp at h
  | cons a at' ih =>
      intro bs h
      cases bs with
      | nil => simp at h
      | cons b bt =>
          simp only [List.zip_cons_cons, List.map_cons]
          rw [ih bt (by simpa using h)]

theorem instantiateElementsH_go (schema : List (LC × TemplateH)) :
    ∀ (st : Store) (acc : List (LC × ElementH)),
    (∀ t ∈ schema, ∀ p ∈ t.2.scales, p.2 < st.scaleObjs.length) →
    (schema.foldl instElemStep (st, acc)).1.ordSems = st.ordSems ∧
    (∃ objs, (schema.foldl instElemStep (st, acc)).1.scaleObjs = st.scaleObjs ++ objs) ∧
    ∃ newElems,
      (schema.foldl instElemStep (st, acc)).2 = acc ++ newElems ∧
      (∀ ref ∈ allScaleRefs newElems,
        st.scaleObjs.length ≤ ref ∧
        ref < (schema.foldl instElemStep (st, acc)).1.scaleObjs.length) ∧
      readOcc (schema.foldl instElemStep (st, acc)).1 newElems = schemaFresh st schema := by
  induction schema with
  | nil =>
      intro st acc _
      exact ⟨rfl, ⟨[], by simp⟩, [], by simp, by simp [allScaleRefs], rfl⟩
  | cons p schema' ih =>
      intro st acc hval
      have hvalp : ∀ q ∈ p.2.scales, q.2 < st.scaleObjs.length :=
        hval p (List.mem_cons_self _ _)
      obtain ⟨ho1, hs1, hsc⟩ := instantiateTemplate_spec st p.2 hvalp
      have hstep : (p :: schema').foldl instElemStep (st, acc) =
          schema'.foldl instElemStep ((instantiateTemplate st p.2).1,
            acc ++ [(p.1, (instantiateTemplate st p.2).2)]) := rfl
      have hlen1 : st.scaleObjs.length + p.2.scales.length
          = (instantiateTemplate st p.2).1.scaleObjs.length := by
        rw [hs1]
        simp
      have hval' : ∀ t ∈ schema', ∀ q ∈ t.2.scales,
          q.2 < (instantiateTemplate st p.2).1.scaleObjs.length := by
        intro t ht q hq
        have := hval t (List.mem_cons_of_mem _ ht) q hq
        omega
      obtain ⟨ho2, ⟨objs2, hs2⟩, newElems', hne', hrefs', hread'⟩ :=
        ih (instantiateTemplate st p.2).1 (acc ++ [(p.1, (instantiateTemplate st p.2).2)]) hval'
      have hrefs_e : ∀ r ∈ (instantiateTemplate st p.2).2.scales.map Prod.snd,
          st.scaleObjs.length ≤ r ∧ r < st.scaleObjs.length + p.2.scales.length := by
        intro r hr
        rw [hsc] at hr
        rw [map_snd_zip_of_length_eq _ _ (by simp)] at hr
        exact List.mem_range'_1.mp hr
      have hfoldlen : (instantiateTemplate st p.2).1.scaleObjs.length ≤
          (schema'.foldl instElemStep ((instantiateTemplate st p.2).1,
            acc ++ [(p.1, (instantiateTemplate st p.2).2)])).1.scaleObjs.length := by
        rw [hs2]
        simp
      rw [hstep]
      refine ⟨ho2.trans ho1, ?_, ?_⟩
      · exact ⟨p.2.scales.map (fun q => freshCopy (st.scaleObjs.getD q.2 default)) ++ objs2,
          by rw [hs2, hs1, List.append_assoc]⟩
      · refine ⟨(p.1, (instantiateTemplate st p.2).2) :: newElems', ?_, ?_, ?_⟩
        · rw [hne']
          simp [List.append_assoc]
        · intro ref href
          unfold allScaleRefs at href
          rw [List.flatMap_cons] at href
          rcases List.mem_append.mp href with h | h
          · obtain ⟨h1, h2⟩ := hrefs_e ref h
            refine ⟨h1, ?_⟩
            omega
          · obtain ⟨h1, h2⟩ := hrefs' ref h
            omega
        · have htail : readOcc (schema'.foldl instElemStep ((instantiateTemplate st p.2).1,
              acc ++ [(p.1, (instantiateTemplate st p.2).2)])).1 newElems'
              = schemaFresh st schema' := by
            rw [hread']
            exact schemaFresh_extend st (instantiateTemplate st p.2).1 schema' _ hs1
              (fun t ht q hq => hval t (List.mem_cons_of_mem _ ht) q hq)
          have hhead : readElem (schema'.foldl instElemStep ((instantiateTemplate st p.2).1,
              acc ++ [(p.1, (instantiateTemplate st p.2).2)])).1
              (instantiateTemplate st p.2).2
              = p.2.scales.map (fun q => (q.1, freshCopy (readScaleObj st q.2))) := by
            have h1 : readElem (schema'.foldl instElemStep ((instantiateTemplate st p.2).1,
                acc ++ [(p.1, (instantiateTemplate st p.2).2)])).1
                (instantiateTemplate st p.2).2
                = readElem (instantiateTemplate st p.2).1 (instantiateTemplate st p.2).2 := by
              refine readElem_extend _ _ _ objs2 hs2 ?_
              intro q hq
              have hqs : q.2 ∈ (instantiateTemplate st p.2).2.scales.map Prod.snd :=
                List.mem_map.mpr ⟨q, hq, rfl⟩
              have := hrefs_e q.2 hqs
              omega
            rw [h1]
            exact readElem_instantiate st p.2 hvalp
          unfold readOcc at htail ⊢
          rw [List.map_cons]
          dsimp only
          rw [hhead, htail]
          rfl

theorem readOcc_extend (stA stB : Store) (elems : List (LC × ElementH))
    (objs : List ScaleObj) (hobjs : stB.scaleObjs = stA.scaleObjs ++ objs)
    (h : ∀ r ∈ allScaleRefs elems, r < stA.scaleObjs.length) :
    readOcc stB elems = readOcc stA elems := by
  unfold readOcc
  refine List.map_congr_left ?_
  intro e he
  refine congrArg (fun l => (e.1, l)) ?_
  refine readElem_extend stA stB e.2 objs hobjs ?_
  intro q hq
  refine h q.2 ?_
  unfold allScaleRefs
  exact List.mem_flatMap.mpr ⟨e, he, List.mem_map.mpr ⟨q, hq, rfl⟩⟩

theorem readOcc_writeValue_ne (st0 : Store) (ref : Nat) (v : Option ℚ)
    (elems : List (LC × ElementH))
    (h : ∀ r ∈ allScaleRefs elems, r ≠ ref) :
    readOcc (writeValue st0 ref v) elems = readOcc st0 elems := by
  unfold readOcc readElem readScaleObj writeValue
  refine List.map_congr_left ?_
  intro e he
  refine congrArg (fun l => (e.1, l)) ?_
  refine List.map_congr_left ?_
  intro q hq
  refine congrArg (fun o => (q.1, o)) ?_
  have hne : q.2 ≠ ref := by
    refine h q.2 ?_
    unfold allScaleRefs
    exact List.mem_flatMap.mpr ⟨e, he, List.mem_map.mpr ⟨q, hq, rfl⟩⟩
  exact getD_set_ne _ _ _ _ _ (Ne.symm hne)

theorem readScaleObj_writeValue_ne (st0 : Store) (ref : Nat) (v : Option ℚ) (r : Nat)
    (h : r ≠ ref) :
    readScaleObj (writeValue st0 ref v) r = readScaleObj st0 r := by
  unfold readScaleObj writeValue
  exact getD_set_ne _ _ _ _ _ (Ne.symm h)

/-- C2 (amended): two successive `instantiate_elements()` calls yield
element sets with equal observable contents — every scale a fresh,
null-valued copy of its template scale — and with no shared scale
object between the two sets, so writing a value through any of the
second occupation's scales changes nothing the first occupation or the
templates observe; the ordinal-semantics store is however left untouched
and each fresh scale keeps the template's `ordSemRef` (the frozen
`OrdinalSemantics` wrapper and its interior mutable `categories` dict
are shared by reference, not deep-copied). -/
theorem c2_instantiate_independence (st : Store) (schema : List (LC × TemplateH))
    (hvalid : ∀ t ∈ schema, ∀ p ∈ t.2.scales, p.2 < st.scaleObjs.length) :
    readOcc (instantiateElementsH (instantiateElementsH st schema).1 schema).1
        (instantiateElementsH st schema).2 = schemaFresh st schema ∧
    readOcc (instantiateElementsH (instantiateElementsH st schema).1 schema).1
        (instantiateElementsH (instantiateElementsH st schema).1 schema).2
      = schemaFresh st schema ∧
    (∀ a ∈ allScaleRefs (instantiateElementsH st schema).2,
     ∀ b ∈ allScaleRefs (instantiateElementsH (instantiateElementsH st schema).1 schema).2,
       a ≠ b) ∧
    (∀ ref v,
      ref ∈ allScaleRefs (instantiateElementsH (instantiateElementsH st schema).1 schema).2 →
      readOcc (writeValue
          (instantiateElementsH (instantiateElementsH st schema).1 schema).1 ref v)
          (instantiateElementsH st schema).2
        = readOcc (instantiateElementsH (instantiateElementsH st schema).1 schema).1
            (instantiateElementsH st schema).2 ∧
      ∀ t ∈ schema, ∀ q ∈ t.2.scales,
        readScaleObj (writeValue
            (instantiateElementsH (instantiateElementsH st schema).1 schema).1 ref v) q.2
          = readScaleObj st q.2) ∧
    (instantiateElementsH (instantiateElementsH st schema).1 schema).1.ordSems
      = st.ordSems := by
  unfold instantiateElementsH
  obtain ⟨ho1, ⟨objs1, hs1⟩, ne1, hne1, hrefs1, hread1⟩ :=
    instantiateElementsH_go schema st [] hvalid
  rw [List.nil_append] at hne1
  have hlen1 : st.scaleObjs.length ≤
      (schema.foldl instElemStep (st, [])).1.scaleObjs.length := by
    rw [hs1]; simp
  have hvalid2 : ∀ t ∈ schema, ∀ p ∈ t.2.scales,
      p.2 < (schema.foldl instElemStep (st, [])).1.scaleObjs.length := by
    intro t ht p hp
    have := hvalid t ht p hp
    omega
  obtain ⟨ho2, ⟨objs2, hs2⟩, ne2, hne2, hrefs2, hread2⟩ :=
    instantiateElementsH_go schema (schema.foldl instElemStep (st, [])).1 [] hvalid2
  rw [List.nil_append] at hne2
  rw [hne1, hne2]
  have hframe1 : readOcc (schema.foldl instElemStep
      ((schema.foldl instElemStep (st, [])).1, [])).1 ne1
      = readOcc (schema.foldl instElemStep (st, [])).1 ne1 := by
    refine readOcc_extend _ _ ne1 objs2 hs2 ?_
    intro r hr
    exact (hrefs1 r hr).2
  refine ⟨?_, ?_, ?_, ?_, ho2.trans ho1⟩
  · rw [hframe1, hread1]
  · rw [hread2]
    exact schemaFresh_extend st (schema.foldl instElemStep (st, [])).1 schema objs1 hs1 hvalid
  · intro a ha b hb
    have h1 := (hrefs1 a ha).2
    have h2 := (hrefs2 b hb).1
    omega
  · intro ref v href
    have hrefge := (hrefs2 ref href).1
    constructor
    · rw [hframe1]
      have hwr : readOcc (writeValue (schema.foldl instElemStep
          ((schema.foldl instElemStep (st, [])).1, [])).1 ref v) ne1
          = readOcc (schema.foldl instElemStep
              ((schema.foldl instElemStep (st, [])).1, [])).1 ne1 := by
        refine readOcc_writeValue_ne _ ref v ne1 ?_
        intro r hr
        have := (hrefs1 r hr).2
        omega
      rw [hwr, hframe1]
    · intro t ht q hq
      have hqlt := hvalid t ht q hq
      have h1 : readScaleObj (writeValue (schema.foldl instElemStep
          ((schema.foldl instElemStep (st, [])).1, [])).1 ref v) q.2
          = readScaleObj (schema.foldl instElemStep
              ((schema.foldl instElemStep (st, [])).1, [])).1 q.2 := by
        refine readScaleObj_writeValue_ne _ ref v q.2 ?_
        omega
      rw [h1]
      unfold readScaleObj
      rw [hs2]
      rw [List.getD_append _ _ _ _ (by omega)]
      rw [hs1]
      rw [List.getD_append _ _ _ _ hqlt]

/-- C2 counterexample: the two instantiated occupations hold distinct
fresh scale objects (refs 1 and 2), but both reference the same mutable
ordinal-semantics object 0 as the template does; mutating that category
dict through occupation 1's scale changes what occupation 2 and the
template observe, refuting "no shared mutable sub-structure". -/
theorem c2_counterexample :
    allScaleRefs (instantiateElementsH c2Store c2Schema).2 = [1] ∧
    allScaleRefs (instantiateElementsH
      (instantiateElementsH c2Store c2Schema).1 c2Schema).2 = [2] ∧
    (readScaleObj (instantiateElementsH
      (instantiateElementsH c2Store c2Schema).1 c2Schema).1 1).ordSemRef = some 0 ∧
    (readScaleObj (instantiateElementsH
      (instantiateElementsH c2Store c2Schema).1 c2Schema).1 2).ordSemRef = some 0 ∧
    readCategoriesVia (instantiateElementsH
      (instantiateElementsH c2Store c2Schema).1 c2Schema).1 2
      = some [(1, "Low".data)] ∧
    readCategoriesVia (writeOrdCategory (instantiateElementsH
      (instantiateElementsH c2Store c2Schema).1 c2Schema).1 0 1 "Changed".data) 2
      = some [(1, "Changed".data)] ∧
    readCategoriesVia (writeOrdCategory (instantiateElementsH
      (instantiateElementsH c2Store c2Schema).1 c2Schema).1 0 1 "Changed".data) 0
      = some [(1, "Changed".data)] ∧
    readCategoriesVia (writeOrdCategory (instantiateElementsH
        (instantiateElementsH c2Store c2Schema).1 c2Schema).1 0 1 "Changed".data) 2
      ≠ readCategoriesVia (instantiateElementsH
          (instantiateElementsH c2Store c2Schema).1 c2Schema).1 2 := by
  refine ⟨rfl, rfl, rfl, rfl, rfl, rfl, rfl, ?_⟩
  decide

/-- C2 witness: the amended statement instantiated at the concrete
one-template schema. -/
theorem c2_instantiate_independence_witness :
    readOcc (instantiateElementsH (instantiateElementsH c2Store c2Schema).1 c2Schema).1
        (instantiateElementsH c2Store c2Schema).2 = schemaFresh c2Store c2Schema ∧
    (instantiateElementsH (instantiateElementsH c2Store c2Schema).1 c2Schema).1.ordSems
      = c2Store.ordSems := by
  have h := c2_instantiate_independence c2Store c2Schema (by decide)
  exact ⟨h.1, h.2.2.2.2⟩

end CHQ
